import Mathlib

/-!
# llama-swap: `proxy/ui_compress.go`

A shallow embedding of the two functions of `proxy/ui_compress.go`:

* `selectEncoding`, the Accept-Encoding negotiation helper;
* `ServeCompressedFile`, which serves a pre-compressed sibling of a static
  asset when the client accepts it and falls back to the uncompressed file.

Go strings are modelled by Lean strings, read as lists of Unicode scalar values
(a Go string that is valid UTF-8).  The separators the code splits on are the
one-byte strings `","` and `";"`, modelled by the characters `','` and `';'`.
-/

namespace Proxy

/-! ## The `strings` functions used by `selectEncoding` -/

/-- Go `unicode.IsSpace`: the Latin-1 spaces `\t \n \v \f \r`, space, U+0085, U+00A0 and the
other code points with the Unicode White_Space property. -/
def isSpace (c : Char) : Bool :=
  let n := c.toNat
  (9 ≤ n && n ≤ 13) || n == 0x20 || n == 0x85 || n == 0xA0 || n == 0x1680 ||
    (0x2000 ≤ n && n ≤ 0x200A) || n == 0x2028 || n == 0x2029 || n == 0x202F ||
    n == 0x205F || n == 0x3000

/-- Go `strings.TrimSpace`: the string without its leading and trailing white space. -/
def TrimSpace (s : List Char) : List Char :=
  ((s.dropWhile isSpace).reverse.dropWhile isSpace).reverse

/-- Go `strings.Index(s, sep)` for a one-character separator; `none` stands for `-1`. -/
def Index : List Char → Char → Option Nat
  | [], _ => none
  | c :: cs, sep => if c = sep then some 0 else (Index cs sep).map (· + 1)

/-- Go `strings.Count(s, sep)` for a one-character separator. -/
def Count : List Char → Char → Nat
  | [], _ => 0
  | c :: cs, sep => (if c = sep then 1 else 0) + Count cs sep

/-- The loop of Go `genSplit`: at most `n` more cuts at the separator, then the remainder. -/
def genSplitLoop (sep : Char) : Nat → List Char → List (List Char)
  | 0, s => [s]
  | n + 1, s =>
    match Index s sep with
    | none => [s]
    | some m => s.take m :: genSplitLoop sep n (s.drop (m + 1))

/-- Go `genSplit(s, sep, 0, n)` for a one-character separator: `n = 0` gives no substrings, a
negative `n` all of them, and `n` is capped at `len(s) + 1`. -/
def genSplit (s : List Char) (sep : Char) (n : Int) : List (List Char) :=
  if n = 0 then []
  else
    let n₁ : Nat := if n < 0 then Count s sep + 1 else n.toNat
    let n₂ : Nat := if n₁ > s.length + 1 then s.length + 1 else n₁
    genSplitLoop sep (n₂ - 1) s

/-- Go `strings.Split(s, sep)`. -/
def Split (s : List Char) (sep : Char) : List (List Char) :=
  genSplit s sep (-1)

/-- Go `strings.SplitN(s, sep, n)`. -/
def SplitN (s : List Char) (sep : Char) (n : Int) : List (List Char) :=
  genSplit s sep n

/-! ## `selectEncoding` -/

/-- One `for _, part := range ...` loop of `selectEncoding`, looking for the encoding `target`:
`some true` when the loop returns from the function, `some false` when it runs to its end, and
`none` when the index `[0]` is out of range. -/
def scanParts (target : List Char) : List (List Char) → Option Bool
  | [] => some false
  | part :: rest =>
    match (SplitN part ';' 2).get? 0 with
    | none => none
    | some p₀ =>
      let enc := TrimSpace p₀
      if enc = target then some true else scanParts target rest

/-- The function `selectEncoding`: the encoding (`"br"`, `"gzip"` or `""`) and the file
extension that goes with it; `none` stands for a run-time panic. -/
def selectEncoding (acceptEncoding : String) : Option (String × String) :=
  if acceptEncoding = "" then some ("", "")
  else
    match scanParts ['b', 'r'] (Split acceptEncoding.data ',') with
    | none => none
    | some true => some ("br", ".br")
    | some false =>
      match scanParts ['g', 'z', 'i', 'p'] (Split acceptEncoding.data ',') with
      | none => none
      | some true => some ("gzip", ".gz")
      | some false => some ("", "")

/-- The stripped tokens of a header value, in the words of the specification: the header is cut
at its commas, each piece loses everything from its first `;` on, and the rest is trimmed of
surrounding white space. -/
def strippedTokens (header : String) : List (List Char) :=
  (header.data.splitOn ',').map fun piece => TrimSpace (piece.takeWhile (· != ';'))

/-- A decoration of a token inside a header value: white space before it, white space after it
and, optionally, a `;` followed by parameter text. -/
structure Decoration where
  lead : List Char
  trail : List Char
  param : Option (List Char)

/-- The decorated token. -/
def Decoration.apply (d : Decoration) (token : List Char) : List Char :=
  d.lead ++ token ++ d.trail ++
    (match d.param with
     | none => []
     | some text => ';' :: text)

/-- The decorations considered: the surrounding text is white space and the parameter text has
no comma. -/
def Decoration.allowed (d : Decoration) : Bool :=
  d.lead.all isSpace && d.trail.all isSpace &&
    (match d.param with
     | none => true
     | some text => !text.contains ',')

/-- A bare token: no `,`, no `;`, and no white space at its start or at its end. -/
def bareToken (t : List Char) : Bool :=
  !t.contains ',' && !t.contains ';' &&
    (match t.head? with
     | some c => !isSpace c
     | none => true) &&
    (match t.getLast? with
     | some c => !isSpace c
     | none => true)

/-- Go `strings.Join(tokens, ",")`. -/
def joinTokens (tokens : List (List Char)) : String :=
  ⟨[','].intercalate tokens⟩

/-! ## The file system, the response writer and the platform -/

/-- Equality of the results of fallible calls is decidable. -/
instance instDecidableEqExcept {ε α : Type} [DecidableEq ε] [DecidableEq α] :
    DecidableEq (Except ε α)
  | .ok a, .ok b => if h : a = b then isTrue (by rw [h]) else isFalse (by simpa using h)
  | .error a, .error b => if h : a = b then isTrue (by rw [h]) else isFalse (by simpa using h)
  | .ok _, .error _ => isFalse (by simp)
  | .error _, .ok _ => isFalse (by simp)

/-- Go `os.FileInfo`, as far as `ServeCompressedFile` reads it: `IsDir()` and `ModTime()`. -/
structure FileInfo where
  isDir : Bool
  modTime : Nat
  deriving DecidableEq, Repr

/-- An opened `http.File`: what its `Stat()` returns (the file information, or the message of the
error) and the bytes it reads. -/
structure File where
  stat : Except String FileInfo
  content : List UInt8
  deriving DecidableEq

/-- Go `http.Header`, a map from header names to their values.  The keys the code uses
(`Content-Type`, `Content-Encoding`, `Vary`, `Accept-Encoding`) are in canonical form already. -/
structure Header where
  entries : List (String × List String)
  deriving DecidableEq

/-- Go `Header.Values`: the values stored under `key`. -/
def Header.Values (h : Header) (key : String) : List String :=
  (h.entries.lookup key).getD []

/-- Go `Header.Get`: the first value stored under `key`, or `""`. -/
def Header.Get (h : Header) (key : String) : String :=
  (h.Values key).headD ""

/-- Whether the map has an entry for `key`. -/
def Header.Has (h : Header) (key : String) : Bool :=
  (h.entries.lookup key).isSome

/-- Go `Header.Del`. -/
def Header.Del (h : Header) (key : String) : Header :=
  ⟨h.entries.filter fun kv => kv.1 != key⟩

/-- Go `Header.Set`: `key` gets the single value `value`. -/
def Header.Set (h : Header) (key value : String) : Header :=
  ⟨(key, [value]) :: (h.Del key).entries⟩

/-- Go `Header.Add`: `value` is appended to the values of `key`. -/
def Header.Add (h : Header) (key value : String) : Header :=
  ⟨(key, h.Values key ++ [value]) :: (h.Del key).entries⟩

/-- Go `*http.Request`, as far as the code reads it. -/
structure Request where
  method : String
  header : Header

/-- Go `http.FileSystem`: an `http.Dir` rooted at a directory, or any other implementation, given
by its `Open` (a file, or the message of the error). -/
inductive FileSystem where
  | Dir (root : String)
  | other (fsOpen : String → Except String File)

/-- What the function takes from the platform it runs on: `os.Executable`,
`filepath.EvalSymlinks`, `filepath.Dir`, `filepath.Join`, `filepath.Ext`, `mime.TypeByExtension`
and the files that `http.Dir(root).Open(name)` finds on disk. -/
structure Platform where
  Executable : Except String String
  EvalSymlinks : String → Except String String
  pathDir : String → String
  pathJoin : String → String → String
  pathExt : String → String
  TypeByExtension : String → String
  dirOpen : String → String → Except String File

/-- The method `fs.Open(name)`. -/
def FileSystem.Open (p : Platform) : FileSystem → String → Except String File
  | .Dir root, name => p.dirOpen root name
  | .other fsOpen, name => fsOpen name

/-- What `ServeCompressedFile` does to the world around it, in order: the calls on the file
system and on the files it opened, and the call of `http.ServeContent` or `http.Error` that
writes the response.  The two response calls are primitives of the platform; they are recorded
with the header map of the response writer at the moment of the call. -/
inductive Event where
  | opened (name : String)
  | openFailed (name : String)
  | stat (name : String)
  | closed (name : String)
  | serveContent (header : Header) (name : String) (modTime : Nat) (content : File)
  | error (header : Header) (msg : String) (code : Nat)
  deriving DecidableEq

/-- Whether an event is a call that writes the response. -/
def Event.isResponse : Event → Bool
  | .serveContent _ _ _ _ => true
  | .error _ _ _ => true
  | _ => false

/-- The state `ServeCompressedFile` runs in: the header map `w.Header()` and the events so
far. -/
structure State where
  header : Header
  log : List Event
  deriving DecidableEq

/-- Record an event. -/
def State.emit (s : State) (e : Event) : State :=
  { s with log := s.log ++ [e] }

/-- The calls that wrote the response. -/
def State.response (s : State) : List Event :=
  s.log.filter Event.isResponse

/-- The call `http.Error(w, msg, code)`. -/
def State.Error (s : State) (msg : String) (code : Nat) : State :=
  s.emit (.error s.header msg code)

/-- The call `http.ServeContent(w, r, name, modTime, content)`. -/
def State.ServeContent (s : State) (name : String) (modTime : Nat) (content : File) : State :=
  s.emit (.serveContent s.header name modTime content)

/-- The deferred `Close` calls, run when the function returns, last deferred first. -/
def State.runDeferred (s : State) : List String → State
  | [] => s
  | name :: rest => (s.emit (.closed name)).runDeferred rest

/-! ## `ServeCompressedFile` -/

/-- Lines 39-49: an `http.Dir` is anchored at the directory above that of the executable; any
other file system is used as it is. -/
def anchor (p : Platform) (fs : FileSystem) : FileSystem :=
  match fs with
  | .Dir dir =>
    match p.Executable with
    | .ok execPath =>
      let execPath :=
        match p.EvalSymlinks execPath with
        | .ok realPath => realPath
        | .error _ => execPath
      let baseDir := p.pathDir (p.pathDir execPath)
      .Dir (p.pathJoin baseDir dir)
    | .error _ => fs
  | .other _ => fs

/-- Lines 82-107: the uncompressed file.  `deferred` holds the files whose `Close` was deferred
before this point. -/
def serveUncompressed (p : Platform) (fs : FileSystem) (s : State) (name : String)
    (deferred : List String) : State :=
  match fs.Open p name with
  | .error err =>
    let s := s.emit (.openFailed name)
    let s := { s with header := s.header.Del "Content-Encoding" }
    let s := { s with header := s.header.Del "Content-Type" }
    let s := s.Error err 404
    s.runDeferred deferred
  | .ok file =>
    let s := s.emit (.opened name)
    let deferred := name :: deferred
    let s := s.emit (.stat name)
    match file.stat with
    | .error err =>
      let s := { s with header := s.header.Del "Content-Encoding" }
      let s := { s with header := s.header.Del "Content-Type" }
      let s := s.Error err 500
      s.runDeferred deferred
    | .ok stat =>
      if stat.isDir then
        let s := { s with header := s.header.Del "Content-Encoding" }
        let s := { s with header := s.header.Del "Content-Type" }
        let s := s.Error "is a directory" 403
        s.runDeferred deferred
      else
        let s := s.ServeContent name stat.modTime file
        s.runDeferred deferred

/-- Lines 58-107: the attempt at the compressed file, then the uncompressed one. -/
def serveNegotiated (p : Platform) (fs : FileSystem) (s : State) (name encoding ext : String) :
    State :=
  if encoding ≠ "" then
    match fs.Open p (name ++ ext) with
    | .ok cf =>
      let s := s.emit (.opened (name ++ ext))
      let deferred := [name ++ ext]
      let s := s.emit (.stat (name ++ ext))
      match cf.stat with
      | .ok stat =>
        if !stat.isDir then
          let s := { s with header := s.header.Set "Content-Encoding" encoding }
          let s := { s with header := s.header.Add "Vary" "Accept-Encoding" }
          let s :=
            match fs.Open p name with
            | .ok _ => (s.emit (.opened name)).emit (.closed name)
            | .error _ => s.emit (.openFailed name)
          let s := s.ServeContent name stat.modTime cf
          s.runDeferred deferred
        else serveUncompressed p fs s name deferred
      | .error _ => serveUncompressed p fs s name deferred
    | .error _ => serveUncompressed p fs (s.emit (.openFailed (name ++ ext))) name []
  else serveUncompressed p fs s name []

/-- Lines 51-54: the `Content-Type` header is set from the extension of `name` when that
extension has a MIME type. -/
def setContentType (p : Platform) (s : State) (name : String) : State :=
  let ct := p.TypeByExtension (p.pathExt name)
  if ct ≠ "" then { s with header := s.header.Set "Content-Type" ct } else s

/-- The function `ServeCompressedFile(fs, w, r, name)`: `w` is the header map of the response
writer it is called with; the result is the state it returns in, `none` for a panic. -/
def ServeCompressedFile (p : Platform) (fs : FileSystem) (w : Header) (r : Request)
    (name : String) : Option State :=
  let fs := anchor p fs
  let s := setContentType p { header := w, log := [] } name
  match selectEncoding (r.header.Get "Accept-Encoding") with
  | none => none
  | some (encoding, ext) => some (serveNegotiated p fs s name encoding ext)

/-! ## What the claims say about a response -/

/-- The header map a response call was made with. -/
def Event.header? : Event → Option Header
  | .serveContent header _ _ _ => some header
  | .error header _ _ => some header
  | _ => none

/-- The response is the file `cf`, served under the name `name` with the modification time
`modTime`, with `Content-Encoding` equal to `encoding` and with `Accept-Encoding` among the
values of `Vary`. -/
def ServesEncoded (out : Option State) (name encoding : String) (cf : File) (modTime : Nat) :
    Prop :=
  ∃ s hdr, out = some s ∧ s.response = [Event.serveContent hdr name modTime cf] ∧
    hdr.Values "Content-Encoding" = [encoding] ∧ "Accept-Encoding" ∈ hdr.Values "Vary"

/-- The response is the error `msg` with status `code`, written with neither a
`Content-Encoding` nor a `Content-Type` header in the header map. -/
def RespondsError (out : Option State) (msg : String) (code : Nat) : Prop :=
  ∃ s hdr, out = some s ∧ s.response = [Event.error hdr msg code] ∧
    hdr.Has "Content-Encoding" = false ∧ hdr.Has "Content-Type" = false

/-- Both runs return and wrote the same response: the same call with the same header map. -/
def SameResponse (a b : Option State) : Prop :=
  ∃ s t e, a = some s ∧ b = some t ∧ s.response = [e] ∧ t.response = [e]

/-- The run returns, and the header map its response was written with has no entry `key`. -/
def ResponseLacks (out : Option State) (key : String) : Prop :=
  ∃ s e hdr, out = some s ∧ s.response = [e] ∧ e.header? = some hdr ∧ hdr.Has key = false

/-- The files that are open after the events `log`, starting from the open files `held`, last
opened first: `opened` adds a file, `closed` takes it away; `none` when a file is closed that is
not open. -/
def trackHandles : List String → List Event → Option (List String)
  | held, [] => some held
  | held, .opened name :: rest => trackHandles (name :: held) rest
  | held, .closed name :: rest =>
    if name ∈ held then trackHandles (held.erase name) rest else none
  | held, .openFailed _ :: rest => trackHandles held rest
  | held, .stat _ :: rest => trackHandles held rest
  | held, .serveContent _ _ _ _ :: rest => trackHandles held rest
  | held, .error _ _ _ :: rest => trackHandles held rest

/-- The request `r` without its `Accept-Encoding` header. -/
def withoutAcceptEncoding (r : Request) : Request :=
  { r with header := r.header.Del "Accept-Encoding" }

/-- The five responses of `ServeCompressedFile`: the sibling of the selected encoding, served as
the body; the file `name`, served as the body; the errors 404, 500 and 403. -/
def TerminalAction (p : Platform) (fs : FileSystem) (r : Request) (name : String) (e : Event) :
    Prop :=
  (∃ hdr enc ext cf st, selectEncoding (r.header.Get "Accept-Encoding") = some (enc, ext) ∧
    enc ≠ "" ∧ fs.Open p (name ++ ext) = .ok cf ∧ cf.stat = .ok st ∧ st.isDir = false ∧
    e = Event.serveContent hdr name st.modTime cf) ∨
  (∃ hdr file st, fs.Open p name = .ok file ∧ file.stat = .ok st ∧ st.isDir = false ∧
    e = Event.serveContent hdr name st.modTime file) ∨
  (∃ hdr msg, e = Event.error hdr msg 404) ∨
  (∃ hdr msg, e = Event.error hdr msg 500) ∨
  (∃ hdr msg, e = Event.error hdr msg 403)

/-- The variant of `serveNegotiated` that the specification proposes: lines 69-73, the `Open` of
the original file in the compressed path and its `Close`, are left out. -/
def serveNegotiatedWithoutOrig (p : Platform) (fs : FileSystem) (s : State)
    (name encoding ext : String) : State :=
  if encoding ≠ "" then
    match fs.Open p (name ++ ext) with
    | .ok cf =>
      let s := s.emit (.opened (name ++ ext))
      let deferred := [name ++ ext]
      let s := s.emit (.stat (name ++ ext))
      match cf.stat with
      | .ok stat =>
        if !stat.isDir then
          let s := { s with header := s.header.Set "Content-Encoding" encoding }
          let s := { s with header := s.header.Add "Vary" "Accept-Encoding" }
          let s := s.ServeContent name stat.modTime cf
          s.runDeferred deferred
        else serveUncompressed p fs s name deferred
      | .error _ => serveUncompressed p fs s name deferred
    | .error _ => serveUncompressed p fs (s.emit (.openFailed (name ++ ext))) name []
  else serveUncompressed p fs s name []

/-- The variant of `ServeCompressedFile` without lines 69-73. -/
def ServeCompressedFileWithoutOrig (p : Platform) (fs : FileSystem) (w : Header) (r : Request)
    (name : String) : Option State :=
  let fs := anchor p fs
  let s := setContentType p { header := w, log := [] } name
  match selectEncoding (r.header.Get "Accept-Encoding") with
  | none => none
  | some (encoding, ext) => some (serveNegotiatedWithoutOrig p fs s name encoding ext)

/-! ## Concrete inputs -/

/-- An in-memory file system: the listed names open, every other name fails to. -/
def memFS (files : List (String × File)) : FileSystem :=
  .other fun name =>
    match files.lookup name with
    | some f => .ok f
    | none => .error ("open " ++ name ++ ": file does not exist")

/-- A regular file with the given modification time and bytes. -/
def regularFile (modTime : Nat) (content : List UInt8) : File :=
  { stat := .ok { isDir := false, modTime := modTime }, content := content }

/-- A directory. -/
def directory (modTime : Nat) : File :=
  { stat := .ok { isDir := true, modTime := modTime }, content := [] }

/-- Go `filepath.Ext` with `/` as the path separator, on the reversed path. -/
def extLoop : List Char → List Char → List Char
  | [], _ => []
  | c :: cs, acc =>
    if c = '/' then [] else if c = '.' then '.' :: acc else extLoop cs (c :: acc)

/-- A platform for the concrete inputs: the executable is not found, and `.js` is the one
extension with a MIME type. -/
def plainPlatform : Platform where
  Executable := .error "executable not found"
  EvalSymlinks := fun path => .ok path
  pathDir := fun path => path
  pathJoin := fun dir name => dir ++ "/" ++ name
  pathExt := fun path => ⟨extLoop path.data.reverse []⟩
  TypeByExtension := fun ext => if ext = ".js" then "text/javascript; charset=utf-8" else ""
  dirOpen := fun root name => .error ("open " ++ root ++ "/" ++ name ++ ": no such file")

/-- A `GET` request with the given `Accept-Encoding` header; none when the value is empty. -/
def getRequest (acceptEncoding : String) : Request :=
  { method := "GET",
    header := ⟨if acceptEncoding = "" then [] else [("Accept-Encoding", [acceptEncoding])]⟩ }

/-- The MIME type `plainPlatform` gives to `.js`. -/
def jsType : String := "text/javascript; charset=utf-8"

/-- A file system with `a.js` and its gzip sibling, and no brotli sibling. -/
def gzipOnlyFS : FileSystem :=
  memFS [("a.js", regularFile 5 [1, 2, 3]), ("a.js.gz", regularFile 6 [9])]

/-- A file system with the brotli sibling of `a.js` and without `a.js` itself. -/
def siblingOnlyFS : FileSystem :=
  memFS [("a.js.br", regularFile 7 [4, 2])]

/-- A file system in which `assets` is a directory that has a brotli sibling. -/
def dirWithSiblingFS : FileSystem :=
  memFS [("assets", directory 3), ("assets.br", regularFile 7 [4, 2])]

/-- A file system with nothing in it. -/
def emptyFS : FileSystem :=
  memFS []

/-- A file system in which `assets` is a directory. -/
def dirFS : FileSystem :=
  memFS [("assets", directory 3)]

/-- A file system in which the brotli sibling of `a.js` is a directory. -/
def siblingDirFS : FileSystem :=
  memFS [("a.js", regularFile 5 [1, 2, 3]), ("a.js.br", directory 3)]

/-- A file system with `a.js` and no sibling. -/
def noSiblingFS : FileSystem :=
  memFS [("a.js", regularFile 5 [1, 2, 3])]

/-- A file that opens and whose `Stat` fails. -/
def brokenFile : File :=
  { stat := .error "stat: input/output error", content := [] }

/-- A file system in which the `Stat` of `a.js` fails. -/
def statFailFS : FileSystem :=
  memFS [("a.js", brokenFile)]

/-- A file system in which the `Stat` of the brotli sibling of `a.js` fails. -/
def siblingStatFailFS : FileSystem :=
  memFS [("a.js", regularFile 5 [1, 2, 3]), ("a.js.br", brokenFile)]

/-- A file system with `a.js` and its brotli sibling. -/
def brotliFS : FileSystem :=
  memFS [("a.js", regularFile 5 [1, 2, 3]), ("a.js.br", regularFile 7 [4, 2])]

/-! ## Facts about the `strings` functions -/

theorem genSplitLoop_cons_of_ne (sep c : Char) (hc : c ≠ sep) (n : Nat) (cs : List Char) :
    genSplitLoop sep n (c :: cs) = (genSplitLoop sep n cs).modifyHead (List.cons c) := by
  cases n with
  | zero => rfl
  | succ k =>
    cases hI : Index cs sep with
    | none => simp [genSplitLoop, Index, hc, hI]
    | some m => simp [genSplitLoop, Index, hc, hI]

theorem Count_le_length (sep : Char) (s : List Char) : Count s sep ≤ s.length := by
  induction s with
  | nil => simp [Count]
  | cons c cs ih =>
    simp only [Count, List.length_cons]
    split <;> omega

theorem genSplitLoop_eq_splitOn (sep : Char) (s : List Char) :
    ∀ n, Count s sep ≤ n → genSplitLoop sep n s = s.splitOn sep := by
  induction s with
  | nil =>
    intro n _
    cases n <;> simp [genSplitLoop, Index]
  | cons c cs ih =>
    intro n hn
    by_cases hc : c = sep
    · subst hc
      simp only [Count, if_true] at hn
      obtain ⟨k, rfl⟩ : ∃ k, n = k + 1 := ⟨n - 1, by omega⟩
      have hk : Count cs c ≤ k := by omega
      simp [genSplitLoop, Index, ih k hk, List.splitOn]
    · simp only [Count, hc, if_false, Nat.zero_add] at hn
      rw [genSplitLoop_cons_of_ne sep c hc, ih n hn]
      simp [List.splitOn, hc]

/-- Go `strings.Split` on a one-character separator cuts the string at every separator. -/
theorem Split_eq_splitOn (s : List Char) (sep : Char) : Split s sep = s.splitOn sep := by
  have h := Count_le_length sep s
  unfold Split genSplit
  simp only [show ¬ ((-1 : Int) = 0) by decide, if_false, show ((-1 : Int) < 0) by decide,
    if_true]
  rw [if_neg (by omega)]
  exact genSplitLoop_eq_splitOn sep s _ (by omega)

theorem genSplitLoop_head (sep : Char) (n : Nat) (s : List Char) :
    (genSplitLoop sep (n + 1) s).get? 0 = some (s.takeWhile (· != sep)) := by
  induction s with
  | nil => simp [genSplitLoop, Index]
  | cons c cs ih =>
    by_cases hc : c = sep
    · subst hc
      simp [genSplitLoop, Index, List.takeWhile]
    · rw [genSplitLoop_cons_of_ne sep c hc]
      have hne : (c != sep) = true := by simpa using hc
      rw [List.takeWhile_cons, hne]
      cases hL : genSplitLoop sep (n + 1) cs with
      | nil => simp [hL] at ih
      | cons x xs =>
        rw [hL] at ih
        simp only [List.get?_cons_zero, Option.some.injEq] at ih
        simp [ih]

/-- The index `[0]` into `strings.SplitN(part, sep, 2)` is in range and is the part of the string
before its first separator. -/
theorem SplitN_two_head (part : List Char) (sep : Char) :
    (SplitN part sep 2).get? 0 = some (part.takeWhile (· != sep)) := by
  unfold SplitN genSplit
  simp only [show ¬ ((2 : Int) = 0) by decide, if_false, show ¬ ((2 : Int) < 0) by decide]
  cases part with
  | nil => simp [genSplitLoop]
  | cons c cs =>
    have h2 : ¬ ((2 : Int).toNat > (c :: cs).length + 1) := by
      simp only [List.length_cons]
      have : (2 : Int).toNat = 2 := rfl
      omega
    rw [if_neg h2]
    exact genSplitLoop_head sep 0 (c :: cs)

theorem scanParts_eq (target : List Char) (parts : List (List Char)) :
    scanParts target parts =
      some (decide (target ∈ parts.map fun p => TrimSpace (p.takeWhile (· != ';')))) := by
  induction parts with
  | nil => simp [scanParts]
  | cons p ps ih =>
    simp only [scanParts, SplitN_two_head, ih, List.map_cons, List.mem_cons]
    by_cases h : TrimSpace (p.takeWhile (· != ';')) = target
    · simp [h]
    · have h2 : ¬ target = TrimSpace (p.takeWhile (· != ';')) := fun e => h e.symm
      simp [h, h2]

/-- The result of `selectEncoding` in terms of the stripped tokens of the header. -/
theorem selectEncoding_eq (h : String) :
    selectEncoding h =
      some (if ['b', 'r'] ∈ strippedTokens h then ("br", ".br")
        else if ['g', 'z', 'i', 'p'] ∈ strippedTokens h then ("gzip", ".gz") else ("", "")) := by
  unfold selectEncoding
  by_cases he : h = ""
  · subst he
    simp [strippedTokens, TrimSpace]
  · rw [if_neg he]
    simp only [scanParts_eq, Split_eq_splitOn]
    unfold strippedTokens
    by_cases hb : ['b', 'r'] ∈
        (h.data.splitOn ',').map fun p => TrimSpace (p.takeWhile (· != ';'))
    · simp [hb]
    · by_cases hg : ['g', 'z', 'i', 'p'] ∈
          (h.data.splitOn ',').map fun p => TrimSpace (p.takeWhile (· != ';'))
      · simp [hb, hg]
      · simp [hb, hg]

theorem isSpace_ne_comma (c : Char) (h : isSpace c = true) : c ≠ ',' := by
  rintro rfl
  revert h
  decide

theorem isSpace_ne_semicolon (c : Char) (h : isSpace c = true) : c ≠ ';' := by
  rintro rfl
  revert h
  decide

/-- Trimming a bare token that is surrounded by white space gives the token back. -/
theorem TrimSpace_surrounded (lead trail t : List Char) (hl : ∀ c ∈ lead, isSpace c = true)
    (ht : ∀ c ∈ trail, isSpace c = true) (hb : bareToken t = true) :
    TrimSpace (lead ++ t ++ trail) = t := by
  unfold TrimSpace
  rw [List.append_assoc, List.dropWhile_append_of_pos hl]
  rcases List.eq_nil_or_concat t with rfl | ⟨init, z, rfl⟩
  · have h0 : List.dropWhile isSpace trail = [] := List.dropWhile_eq_nil_iff.mpr ht
    simp [h0]
  · rw [List.concat_eq_append] at hb ⊢
    have hz : isSpace z = false := by
      simp only [bareToken, List.getLast?_append, List.getLast?_singleton] at hb
      have := hb
      simp only [Bool.and_eq_true] at this
      simpa using this.2
    have hhead : List.dropWhile isSpace (init ++ [z] ++ trail) = init ++ [z] ++ trail := by
      cases init with
      | nil => simp [hz]
      | cons a as =>
        have ha : isSpace a = false := by
          simp only [bareToken, List.cons_append, List.head?_cons] at hb
          have := hb
          simp only [Bool.and_eq_true] at this
          simpa using this.1.2
        simp [ha]
    rw [hhead]
    have hrt : ∀ c ∈ trail.reverse, isSpace c = true := fun c hc =>
      ht c (List.mem_reverse.mp hc)
    rw [List.reverse_append, List.dropWhile_append_of_pos hrt]
    simp [hz]

/-- The stripped token of a decorated bare token is the token. -/
theorem strip_decorated (d : Decoration) (t : List Char) (hd : d.allowed = true)
    (hb : bareToken t = true) :
    TrimSpace ((d.apply t).takeWhile (· != ';')) = t := by
  simp only [Decoration.allowed, Bool.and_eq_true, List.all_eq_true] at hd
  obtain ⟨⟨hl, ht⟩, -⟩ := hd
  have hsemi : ∀ c ∈ d.lead ++ t ++ d.trail, (c != ';') = true := by
    intro c hc
    simp only [List.mem_append] at hc
    rcases hc with (hc | hc) | hc
    · simpa using isSpace_ne_semicolon c (hl c hc)
    · have : ';' ∉ t := by
        simp only [bareToken, Bool.and_eq_true] at hb
        simpa using hb.1.1.2
      simp only [bne_iff_ne, ne_eq]
      rintro rfl
      exact this hc
    · simpa using isSpace_ne_semicolon c (ht c hc)
  have htake : (d.apply t).takeWhile (· != ';') = d.lead ++ t ++ d.trail := by
    unfold Decoration.apply
    rw [List.takeWhile_append_of_pos hsemi]
    cases d.param <;> simp
  rw [htake]
  exact TrimSpace_surrounded d.lead d.trail t hl ht hb

/-- A decorated bare token has no comma. -/
theorem comma_not_mem_decorated (d : Decoration) (t : List Char) (hd : d.allowed = true)
    (hb : bareToken t = true) : ',' ∉ d.apply t := by
  simp only [Decoration.allowed, Bool.and_eq_true, List.all_eq_true] at hd
  obtain ⟨⟨hl, ht⟩, hp⟩ := hd
  have htc : ',' ∉ t := by
    simp only [bareToken, Bool.and_eq_true] at hb
    simpa using hb.1.1.1
  unfold Decoration.apply
  simp only [List.mem_append, not_or]
  refine ⟨⟨⟨fun h => isSpace_ne_comma _ (hl _ h) rfl, htc⟩,
    fun h => isSpace_ne_comma _ (ht _ h) rfl⟩, ?_⟩
  cases hpar : d.param with
  | none => simp
  | some text =>
    rw [hpar] at hp
    have : ',' ∉ text := by simpa using hp
    simp only [List.mem_cons, not_or]
    exact ⟨by decide, this⟩

/-- The stripped tokens of a header joined from comma-free pieces. -/
theorem strippedTokens_joinTokens (pieces : List (List Char)) (hne : pieces ≠ [])
    (hc : ∀ piece ∈ pieces, ',' ∉ piece) :
    strippedTokens (joinTokens pieces) =
      pieces.map fun piece => TrimSpace (piece.takeWhile (· != ';')) := by
  unfold strippedTokens joinTokens
  simp only
  rw [List.splitOn_intercalate pieces ',' hc hne]

/-! ## Facts about the header map -/

theorem lookup_filter_self (l : List (String × List String)) (k : String) :
    (l.filter fun kv => kv.1 != k).lookup k = none := by
  induction l with
  | nil => rfl
  | cons a as ih =>
    obtain ⟨a1, a2⟩ := a
    by_cases h : a1 = k
    · simp [List.filter_cons, h, ih]
    · have hk : (k == a1) = false := by simpa using fun e : k = a1 => h e.symm
      simp [List.filter_cons, h, List.lookup_cons, hk, ih]

theorem lookup_filter_of_ne (l : List (String × List String)) (k k' : String) (hne : k' ≠ k) :
    (l.filter fun kv => kv.1 != k).lookup k' = l.lookup k' := by
  induction l with
  | nil => rfl
  | cons a as ih =>
    obtain ⟨a1, a2⟩ := a
    by_cases h : a1 = k
    · subst h
      have hk : (k' == a1) = false := by simpa using hne
      simp [List.filter_cons, List.lookup_cons, hk, ih]
    · simp only [List.filter_cons, bne_iff_ne, ne_eq, h, not_false_eq_true, decide_True, if_true,
        List.lookup_cons, ih]

theorem Header.Has_Del_self (h : Header) (k : String) : (h.Del k).Has k = false := by
  simp [Header.Has, Header.Del, lookup_filter_self]

theorem Header.Has_Del_of_ne (h : Header) (k k' : String) (hne : k' ≠ k) :
    (h.Del k).Has k' = h.Has k' := by
  simp [Header.Has, Header.Del, lookup_filter_of_ne _ _ _ hne]

theorem Header.Has_Del_of_lacks (h : Header) (k k' : String) (hl : h.Has k' = false) :
    (h.Del k).Has k' = false := by
  by_cases hne : k' = k
  · rw [hne]
    exact Header.Has_Del_self h k
  · rw [Header.Has_Del_of_ne h k k' hne]
    exact hl

theorem Header.Values_Set_self (h : Header) (k v : String) : (h.Set k v).Values k = [v] := by
  simp [Header.Values, Header.Set, List.lookup_cons]

theorem Header.Has_Set_of_ne (h : Header) (k k' v : String) (hne : k' ≠ k) :
    (h.Set k v).Has k' = h.Has k' := by
  have hk : (k' == k) = false := by simpa using hne
  simp [Header.Has, Header.Set, Header.Del, List.lookup_cons, hk, lookup_filter_of_ne _ _ _ hne]

theorem Header.Values_Add_self (h : Header) (k v : String) :
    (h.Add k v).Values k = h.Values k ++ [v] := by
  simp [Header.Values, Header.Add, List.lookup_cons]

theorem Header.Values_Add_of_ne (h : Header) (k k' v : String) (hne : k' ≠ k) :
    (h.Add k v).Values k' = h.Values k' := by
  have hk : (k' == k) = false := by simpa using hne
  simp [Header.Values, Header.Add, Header.Del, List.lookup_cons, hk,
    lookup_filter_of_ne _ _ _ hne]

theorem Header.Has_Add_of_ne (h : Header) (k k' v : String) (hne : k' ≠ k) :
    (h.Add k v).Has k' = h.Has k' := by
  have hk : (k' == k) = false := by simpa using hne
  simp [Header.Has, Header.Add, Header.Del, List.lookup_cons, hk, lookup_filter_of_ne _ _ _ hne]

/-! ## Facts about the steps of `ServeCompressedFile` -/

theorem response_emit (s : State) (e : Event) :
    (s.emit e).response = s.response ++ (if e.isResponse then [e] else []) := by
  simp only [State.response, State.emit, List.filter_append]
  cases h : e.isResponse <;> simp [List.filter_cons, h]

theorem header_emit (s : State) (e : Event) : (s.emit e).header = s.header := rfl

theorem response_runDeferred (s : State) (deferred : List String) :
    (s.runDeferred deferred).response = s.response := by
  induction deferred generalizing s with
  | nil => rfl
  | cons d ds ih =>
    simp [State.runDeferred, ih, response_emit, Event.isResponse]

theorem response_withHeader (s : State) (h : Header) :
    ({ s with header := h } : State).response = s.response := rfl

/-- The fallback when `name` does not open. -/
theorem serveUncompressed_openFailed (p : Platform) (fs : FileSystem) (s : State)
    (name : String) (deferred : List String) (err : String)
    (hopen : fs.Open p name = .error err) :
    (serveUncompressed p fs s name deferred).response =
      s.response ++
        [Event.error ((s.header.Del "Content-Encoding").Del "Content-Type") err 404] := by
  simp [serveUncompressed, hopen, response_runDeferred, State.Error, response_emit,
    Event.isResponse, header_emit, response_withHeader]

/-- The fallback when `name` opens and its `Stat` fails. -/
theorem serveUncompressed_statFailed (p : Platform) (fs : FileSystem) (s : State)
    (name : String) (deferred : List String) (file : File) (err : String)
    (hopen : fs.Open p name = .ok file) (hstat : file.stat = .error err) :
    (serveUncompressed p fs s name deferred).response =
      s.response ++
        [Event.error ((s.header.Del "Content-Encoding").Del "Content-Type") err 500] := by
  simp [serveUncompressed, hopen, hstat, response_runDeferred, State.Error, response_emit,
    Event.isResponse, header_emit, response_withHeader]

/-- The fallback when `name` is a directory. -/
theorem serveUncompressed_isDir (p : Platform) (fs : FileSystem) (s : State)
    (name : String) (deferred : List String) (file : File) (st : FileInfo)
    (hopen : fs.Open p name = .ok file) (hstat : file.stat = .ok st) (hdir : st.isDir = true) :
    (serveUncompressed p fs s name deferred).response =
      s.response ++
        [Event.error ((s.header.Del "Content-Encoding").Del "Content-Type")
          "is a directory" 403] := by
  simp [serveUncompressed, hopen, hstat, hdir, response_runDeferred, State.Error, response_emit,
    Event.isResponse, header_emit, response_withHeader]

/-- The fallback when `name` is a regular file. -/
theorem serveUncompressed_regular (p : Platform) (fs : FileSystem) (s : State)
    (name : String) (deferred : List String) (file : File) (st : FileInfo)
    (hopen : fs.Open p name = .ok file) (hstat : file.stat = .ok st) (hreg : st.isDir = false) :
    (serveUncompressed p fs s name deferred).response =
      s.response ++ [Event.serveContent s.header name st.modTime file] := by
  simp [serveUncompressed, hopen, hstat, hreg, response_runDeferred, State.ServeContent,
    response_emit, Event.isResponse, header_emit]

theorem response_setContentType (p : Platform) (w : Header) (name : String) :
    (setContentType p { header := w, log := [] } name).response = [] := by
  unfold setContentType
  simp only
  split <;> rfl

theorem Has_setContentType (p : Platform) (w : Header) (name key : String)
    (hne : key ≠ "Content-Type") :
    (setContentType p { header := w, log := [] } name).header.Has key = w.Has key := by
  unfold setContentType
  simp only
  split
  · exact Header.Has_Set_of_ne w _ key _ hne
  · rfl

/-- The compressed path: the selected sibling is a regular file. -/
theorem serveNegotiated_compressed (p : Platform) (fs : FileSystem) (s : State)
    (name enc ext : String) (cf : File) (st : FileInfo) (henc : enc ≠ "")
    (hopen : fs.Open p (name ++ ext) = .ok cf) (hstat : cf.stat = .ok st)
    (hreg : st.isDir = false) :
    (serveNegotiated p fs s name enc ext).response =
      s.response ++
        [Event.serveContent ((s.header.Set "Content-Encoding" enc).Add "Vary" "Accept-Encoding")
          name st.modTime cf] := by
  unfold serveNegotiated
  simp only [henc, ne_eq, not_false_eq_true, if_true, hopen, hstat, hreg, Bool.not_false]
  cases fs.Open p name <;>
    simp [response_runDeferred, State.ServeContent, response_emit, Event.isResponse, header_emit,
      response_withHeader]

/-- The fallback is reached, with the header map untouched and no response written yet, when
the selected sibling is not a regular file. -/
theorem serveNegotiated_fallback (p : Platform) (fs : FileSystem) (s : State)
    (name enc ext : String)
    (hfall : enc ≠ "" → ∀ cf st, fs.Open p (name ++ ext) = .ok cf → cf.stat = .ok st →
      st.isDir = true) :
    ∃ s' deferred, serveNegotiated p fs s name enc ext = serveUncompressed p fs s' name deferred ∧
      s'.header = s.header ∧ s'.response = s.response := by
  unfold serveNegotiated
  by_cases henc : enc = ""
  · exact ⟨s, [], by simp [henc], rfl, rfl⟩
  · simp only [ne_eq, henc, not_false_eq_true, if_true]
    cases hopen : fs.Open p (name ++ ext) with
    | error err =>
      exact ⟨_, _, rfl, rfl, by simp [response_emit, Event.isResponse]⟩
    | ok cf =>
      simp only
      cases hstat : cf.stat with
      | error err =>
        exact ⟨_, _, rfl, rfl, by simp [response_emit, Event.isResponse]⟩
      | ok st =>
        have hdir := hfall henc cf st hopen hstat
        simp only [hdir, Bool.not_true, Bool.false_eq_true, if_false]
        exact ⟨_, _, rfl, rfl, by simp [response_emit, Event.isResponse]⟩

/-- The function `selectEncoding` returns for every header value. -/
theorem selectEncoding_returns (h : String) : ∃ enc ext, selectEncoding h = some (enc, ext) := by
  rw [selectEncoding_eq]
  exact ⟨_, _, rfl⟩

/-- The run of `ServeCompressedFile` when the selected sibling is not a regular file: the
fallback, entered with the header map as `setContentType` left it. -/
theorem ServeCompressedFile_fallback (p : Platform) (fs : FileSystem) (w : Header) (r : Request)
    (name : String)
    (hfall : ∀ enc ext cf st, selectEncoding (r.header.Get "Accept-Encoding") = some (enc, ext) →
      enc ≠ "" → (anchor p fs).Open p (name ++ ext) = .ok cf → cf.stat = .ok st →
      st.isDir = true) :
    ∃ s' deferred, ServeCompressedFile p fs w r name =
        some (serveUncompressed p (anchor p fs) s' name deferred) ∧
      s'.header = (setContentType p { header := w, log := [] } name).header ∧
      s'.response = [] := by
  obtain ⟨enc, ext, hsel⟩ := selectEncoding_returns (r.header.Get "Accept-Encoding")
  obtain ⟨s', d, hrun, hh, hr⟩ := serveNegotiated_fallback p (anchor p fs)
    (setContentType p { header := w, log := [] } name) name enc ext
    (fun henc cf st ho hs => hfall enc ext cf st hsel henc ho hs)
  refine ⟨s', d, ?_, hh, ?_⟩
  · unfold ServeCompressedFile
    simp only [hsel, hrun]
  · rw [hr, response_setContentType]

theorem Has_Del_Del_encoding (h : Header) :
    ((h.Del "Content-Encoding").Del "Content-Type").Has "Content-Encoding" = false :=
  Header.Has_Del_of_lacks _ _ _ (Header.Has_Del_self h _)

theorem Has_Del_Del_type (h : Header) :
    ((h.Del "Content-Encoding").Del "Content-Type").Has "Content-Type" = false :=
  Header.Has_Del_self _ _

theorem append_ne_self (name ext : String) (h : ext ≠ "") : name ++ ext ≠ name := by
  intro e
  apply h
  have hd := congrArg String.data e
  rw [String.data_append, List.append_right_eq_self] at hd
  exact String.ext hd

/-- A selected encoding comes with a non-empty extension. -/
theorem selectEncoding_ext_ne (h enc ext : String) (hsel : selectEncoding h = some (enc, ext))
    (henc : enc ≠ "") : ext ≠ "" := by
  rw [selectEncoding_eq] at hsel
  split_ifs at hsel <;> simp only [Option.some.injEq, Prod.mk.injEq] at hsel
  · rw [← hsel.2]
    decide
  · rw [← hsel.2]
    decide
  · exact absurd hsel.1.symm henc

/-- The response of the fallback depends on the file system through `Open(name)` only. -/
theorem serveUncompressed_response_congr (p : Platform) (fs₁ fs₂ : FileSystem) (s₁ s₂ : State)
    (name : String) (d₁ d₂ : List String) (ho : fs₁.Open p name = fs₂.Open p name)
    (hh : s₁.header = s₂.header) (hr : s₁.response = s₂.response) :
    (serveUncompressed p fs₁ s₁ name d₁).response =
      (serveUncompressed p fs₂ s₂ name d₂).response := by
  cases h₂ : fs₂.Open p name with
  | error err =>
    rw [serveUncompressed_openFailed p fs₁ s₁ name d₁ err (ho.trans h₂),
      serveUncompressed_openFailed p fs₂ s₂ name d₂ err h₂, hh, hr]
  | ok file =>
    cases hstat : file.stat with
    | error err =>
      rw [serveUncompressed_statFailed p fs₁ s₁ name d₁ file err (ho.trans h₂) hstat,
        serveUncompressed_statFailed p fs₂ s₂ name d₂ file err h₂ hstat, hh, hr]
    | ok st =>
      cases hdir : st.isDir with
      | true =>
        rw [serveUncompressed_isDir p fs₁ s₁ name d₁ file st (ho.trans h₂) hstat hdir,
          serveUncompressed_isDir p fs₂ s₂ name d₂ file st h₂ hstat hdir, hh, hr]
      | false =>
        rw [serveUncompressed_regular p fs₁ s₁ name d₁ file st (ho.trans h₂) hstat hdir,
          serveUncompressed_regular p fs₂ s₂ name d₂ file st h₂ hstat hdir, hh, hr]

/-- The fallback writes one response, and its header map has no entry that the header map it
was entered with did not have. -/
theorem serveUncompressed_single (p : Platform) (fs : FileSystem) (s : State) (name : String)
    (d : List String) (hr : s.response = []) :
    ∃ e hdr, (serveUncompressed p fs s name d).response = [e] ∧ e.header? = some hdr ∧
      ∀ key, s.header.Has key = false → hdr.Has key = false := by
  have hdel : ∀ key, s.header.Has key = false →
      ((s.header.Del "Content-Encoding").Del "Content-Type").Has key = false := fun key hk =>
    Header.Has_Del_of_lacks _ _ _ (Header.Has_Del_of_lacks _ _ _ hk)
  cases ho : fs.Open p name with
  | error err =>
    refine ⟨Event.error ((s.header.Del "Content-Encoding").Del "Content-Type") err 404, _, ?_,
      rfl, hdel⟩
    rw [serveUncompressed_openFailed p fs s name d err ho, hr, List.nil_append]
  | ok file =>
    cases hstat : file.stat with
    | error err =>
      refine ⟨Event.error ((s.header.Del "Content-Encoding").Del "Content-Type") err 500, _, ?_,
        rfl, hdel⟩
      rw [serveUncompressed_statFailed p fs s name d file err ho hstat, hr, List.nil_append]
    | ok st =>
      cases hdir : st.isDir with
      | true =>
        refine ⟨Event.error ((s.header.Del "Content-Encoding").Del "Content-Type")
          "is a directory" 403, _, ?_, rfl, hdel⟩
        rw [serveUncompressed_isDir p fs s name d file st ho hstat hdir, hr, List.nil_append]
      | false =>
        refine ⟨Event.serveContent s.header name st.modTime file, _, ?_, rfl, fun _ hk => hk⟩
        rw [serveUncompressed_regular p fs s name d file st ho hstat hdir, hr, List.nil_append]

theorem log_setContentType (p : Platform) (w : Header) (name : String) :
    (setContentType p { header := w, log := [] } name).log = [] := by
  unfold setContentType
  simp only
  split <;> rfl

/-- The two file systems `siblingDirFS` and `noSiblingFS` differ at `a.js.br` only. -/
theorem siblingDirFS_differs_at_sibling (path : String) (hne : path ≠ "a.js" ++ ".br") :
    (anchor plainPlatform siblingDirFS).Open plainPlatform path =
      (anchor plainPlatform noSiblingFS).Open plainPlatform path := by
  have hne' : path ≠ "a.js.br" := hne
  by_cases h1 : path = "a.js"
  · subst h1
    decide
  · have hb1 : (path == "a.js") = false := by simpa using h1
    have hb2 : (path == "a.js.br") = false := by simpa using hne'
    simp [anchor, siblingDirFS, noSiblingFS, memFS, FileSystem.Open, List.lookup, hb1, hb2]

/-! ## Claims about `selectEncoding` -/

/-- C1: a header with a stripped token `br` and a stripped token `gzip`, in whatever order and
with whatever parameters, makes `selectEncoding` return `("br", ".br")`. -/
theorem selectEncoding_br_and_gzip (h : String)
    (hbr : ['b', 'r'] ∈ strippedTokens h) (_hgz : ['g', 'z', 'i', 'p'] ∈ strippedTokens h) :
    selectEncoding h = some ("br", ".br") := by
  rw [selectEncoding_eq, if_pos hbr]

theorem selectEncoding_br_and_gzip_witness :
    (['b', 'r'] ∈ strippedTokens "gzip;q=1.0, br;q=0" ∧
      ['g', 'z', 'i', 'p'] ∈ strippedTokens "gzip;q=1.0, br;q=0") ∧
    selectEncoding "gzip;q=1.0, br;q=0" = some ("br", ".br") :=
  ⟨⟨by decide, by decide⟩,
    selectEncoding_br_and_gzip "gzip;q=1.0, br;q=0" (by decide) (by decide)⟩

/-- C2: a header with a stripped token `gzip` and no stripped token `br` makes `selectEncoding`
return `("gzip", ".gz")`. -/
theorem selectEncoding_gzip_only (h : String)
    (hgz : ['g', 'z', 'i', 'p'] ∈ strippedTokens h) (hbr : ['b', 'r'] ∉ strippedTokens h) :
    selectEncoding h = some ("gzip", ".gz") := by
  rw [selectEncoding_eq, if_neg hbr, if_pos hgz]

theorem selectEncoding_gzip_only_witness :
    (['g', 'z', 'i', 'p'] ∈ strippedTokens "deflate, gzip ;q=0.5, Br" ∧
      ['b', 'r'] ∉ strippedTokens "deflate, gzip ;q=0.5, Br") ∧
    selectEncoding "deflate, gzip ;q=0.5, Br" = some ("gzip", ".gz") :=
  ⟨⟨by decide, by decide⟩,
    selectEncoding_gzip_only "deflate, gzip ;q=0.5, Br" (by decide) (by decide)⟩

/-- C3: the empty header, and every header none of whose stripped tokens is exactly `br` or
`gzip`, makes `selectEncoding` return `("", "")`. -/
theorem selectEncoding_none (h : String)
    (hno : h = "" ∨ (['b', 'r'] ∉ strippedTokens h ∧ ['g', 'z', 'i', 'p'] ∉ strippedTokens h)) :
    selectEncoding h = some ("", "") := by
  rcases hno with rfl | ⟨hbr, hgz⟩
  · rfl
  · rw [selectEncoding_eq, if_neg hbr, if_neg hgz]

theorem selectEncoding_none_witness :
    ("BR, deflate;q=0.3, GZIP" = "" ∨
      (['b', 'r'] ∉ strippedTokens "BR, deflate;q=0.3, GZIP" ∧
        ['g', 'z', 'i', 'p'] ∉ strippedTokens "BR, deflate;q=0.3, GZIP")) ∧
    selectEncoding "BR, deflate;q=0.3, GZIP" = some ("", "") :=
  ⟨Or.inr ⟨by decide, by decide⟩,
    selectEncoding_none "BR, deflate;q=0.3, GZIP" (Or.inr ⟨by decide, by decide⟩)⟩

/-- C4: decorating the bare tokens of a comma-joined header with surrounding white space and
with comma-free parameter text after a `;` does not change what `selectEncoding` returns. -/
theorem selectEncoding_decoration (l : List (List Char × Decoration))
    (hbare : ∀ td ∈ l, bareToken td.1 = true) (hdec : ∀ td ∈ l, td.2.allowed = true) :
    selectEncoding (joinTokens (l.map fun td => td.2.apply td.1)) =
      selectEncoding (joinTokens (l.map Prod.fst)) := by
  rcases l with _ | ⟨td, rest⟩
  · rfl
  · rw [selectEncoding_eq, selectEncoding_eq]
    have h1 : strippedTokens (joinTokens ((td :: rest).map fun td => td.2.apply td.1)) =
        (td :: rest).map Prod.fst := by
      rw [strippedTokens_joinTokens _ (by simp)]
      · rw [List.map_map]
        apply List.map_congr_left
        intro x hx
        exact strip_decorated x.2 x.1 (hdec x hx) (hbare x hx)
      · intro piece hp
        obtain ⟨x, hx, rfl⟩ := List.mem_map.mp hp
        exact comma_not_mem_decorated x.2 x.1 (hdec x hx) (hbare x hx)
    have h2 : strippedTokens (joinTokens ((td :: rest).map Prod.fst)) =
        (td :: rest).map Prod.fst := by
      rw [strippedTokens_joinTokens _ (by simp)]
      · rw [List.map_map]
        apply List.map_congr_left
        intro x hx
        have := strip_decorated ⟨[], [], none⟩ x.1 (by decide) (hbare x hx)
        simpa [Decoration.apply] using this
      · intro piece hp
        obtain ⟨x, hx, rfl⟩ := List.mem_map.mp hp
        have := comma_not_mem_decorated ⟨[], [], none⟩ x.1 (by decide) (hbare x hx)
        simpa [Decoration.apply] using this
    rw [h1, h2]

theorem selectEncoding_decoration_witness :
    ((∀ td ∈ [("gzip".data, (⟨[' '], [], some "q=0.5".data⟩ : Decoration)),
        ("br".data, ⟨[' '], [' '], some "q=0.8".data⟩)], bareToken td.1 = true) ∧
      (∀ td ∈ [("gzip".data, (⟨[' '], [], some "q=0.5".data⟩ : Decoration)),
        ("br".data, ⟨[' '], [' '], some "q=0.8".data⟩)], td.2.allowed = true)) ∧
    selectEncoding " gzip;q=0.5, br ;q=0.8" = selectEncoding "gzip,br" :=
  ⟨⟨by decide, by decide⟩,
    selectEncoding_decoration
      [("gzip".data, ⟨[' '], [], some "q=0.5".data⟩), ("br".data, ⟨[' '], [' '], some "q=0.8".data⟩)]
      (by decide) (by decide)⟩

/-! ## Claims about `ServeCompressedFile`

The file system of the claims is the one the function reads: `anchor p fs`, which is `fs` itself
unless `fs` is an `http.Dir`.  The response is the call of `http.ServeContent` or `http.Error`,
with the header map the call is made with. -/

/-- C5, as the code has it: when the sibling of the encoding that `selectEncoding` picks
(`name ++ ".br"` for a header with a `br` token, `name ++ ".gz"` for a header with a `gzip` token
and no `br` token) is a regular file, the response is that file, with `Content-Encoding` equal to
the encoding and `Accept-Encoding` among the values of `Vary`. -/
theorem serves_selected_sibling (p : Platform) (fs : FileSystem) (w : Header) (r : Request)
    (name enc ext : String) (cf : File) (st : FileInfo)
    (hsel : (enc = "br" ∧ ext = ".br" ∧
        ['b', 'r'] ∈ strippedTokens (r.header.Get "Accept-Encoding")) ∨
      (enc = "gzip" ∧ ext = ".gz" ∧
        ['g', 'z', 'i', 'p'] ∈ strippedTokens (r.header.Get "Accept-Encoding") ∧
        ['b', 'r'] ∉ strippedTokens (r.header.Get "Accept-Encoding")))
    (hopen : (anchor p fs).Open p (name ++ ext) = .ok cf) (hstat : cf.stat = .ok st)
    (hreg : st.isDir = false) :
    ServesEncoded (ServeCompressedFile p fs w r name) name enc cf st.modTime := by
  have hs : selectEncoding (r.header.Get "Accept-Encoding") = some (enc, ext) ∧ enc ≠ "" := by
    rcases hsel with ⟨rfl, rfl, hbr⟩ | ⟨rfl, rfl, hgz, hbr⟩
    · exact ⟨by rw [selectEncoding_eq, if_pos hbr], by decide⟩
    · exact ⟨by rw [selectEncoding_eq, if_neg hbr, if_pos hgz], by decide⟩
  refine ⟨serveNegotiated p (anchor p fs) (setContentType p { header := w, log := [] } name)
      name enc ext,
    ((setContentType p { header := w, log := [] } name).header.Set "Content-Encoding" enc).Add
      "Vary" "Accept-Encoding", ?_, ?_, ?_, ?_⟩
  · unfold ServeCompressedFile
    simp only [hs.1]
  · rw [serveNegotiated_compressed p _ _ name enc ext cf st hs.2 hopen hstat hreg,
      response_setContentType, List.nil_append]
  · rw [Header.Values_Add_of_ne _ _ _ _ (by decide), Header.Values_Set_self]
  · rw [Header.Values_Add_self]
    simp

/-- An instance of `serves_selected_sibling`: the gzip sibling of `a.js` for a client that
accepts gzip and deflate. -/
theorem serves_selected_sibling_witness :
    ServesEncoded (ServeCompressedFile plainPlatform gzipOnlyFS ⟨[]⟩ (getRequest "deflate, gzip")
      "a.js") "a.js" "gzip" (regularFile 6 [9]) 6 :=
  serves_selected_sibling plainPlatform gzipOnlyFS ⟨[]⟩ (getRequest "deflate, gzip") "a.js"
    "gzip" ".gz" (regularFile 6 [9]) ⟨false, 6⟩
    (Or.inr ⟨rfl, rfl, by decide, by decide⟩) (by decide) rfl rfl

/-- C5, as it is stated, fails: `a.js.gz` is a regular file and the client accepts gzip, but it
accepts brotli too, `a.js.br` does not exist, and the response is the uncompressed `a.js`. -/
theorem gzip_sibling_not_served :
    ((anchor plainPlatform gzipOnlyFS).Open plainPlatform ("a.js" ++ ".gz") =
        .ok (regularFile 6 [9]) ∧
      (regularFile 6 [9]).stat = .ok ⟨false, 6⟩ ∧
      ['g', 'z', 'i', 'p'] ∈
        strippedTokens ((getRequest "br, gzip").header.Get "Accept-Encoding")) ∧
    (ServeCompressedFile plainPlatform gzipOnlyFS ⟨[]⟩ (getRequest "br, gzip") "a.js").map
        State.response =
      some [Event.serveContent ⟨[("Content-Type", [jsType])]⟩ "a.js" 5 (regularFile 5 [1, 2, 3])] ∧
    ¬ ServesEncoded (ServeCompressedFile plainPlatform gzipOnlyFS ⟨[]⟩ (getRequest "br, gzip")
      "a.js") "a.js" "gzip" (regularFile 6 [9]) 6 := by
  have hrun : (ServeCompressedFile plainPlatform gzipOnlyFS ⟨[]⟩ (getRequest "br, gzip")
      "a.js").map State.response =
      some [Event.serveContent ⟨[("Content-Type", [jsType])]⟩ "a.js" 5
        (regularFile 5 [1, 2, 3])] := by decide
  refine ⟨⟨by decide, rfl, by decide⟩, hrun, ?_⟩
  rintro ⟨s, hdr, hs, hr, hce, -⟩
  rw [hs, Option.map_some', hr] at hrun
  simp only [Option.some.injEq, List.cons.injEq, Event.serveContent.injEq, and_true] at hrun
  rw [hrun.1] at hce
  revert hce
  decide

/-- C6, as the code has it: when the compressed sibling is not served (the sibling of the
selected encoding, if an encoding is selected, is not a regular file) and `name` does not open,
the response is the error 404 with the message of the open error, written with neither a
`Content-Encoding` nor a `Content-Type` header in the header map. -/
theorem missing_file_404 (p : Platform) (fs : FileSystem) (w : Header) (r : Request)
    (name err : String)
    (hfall : ∀ enc ext cf st, selectEncoding (r.header.Get "Accept-Encoding") = some (enc, ext) →
      enc ≠ "" → (anchor p fs).Open p (name ++ ext) = .ok cf → cf.stat = .ok st →
      st.isDir = true)
    (hopen : (anchor p fs).Open p name = .error err) :
    RespondsError (ServeCompressedFile p fs w r name) err 404 := by
  obtain ⟨s', d, hrun, -, hr⟩ := ServeCompressedFile_fallback p fs w r name hfall
  refine ⟨_, (s'.header.Del "Content-Encoding").Del "Content-Type", hrun, ?_,
    Has_Del_Del_encoding _, Has_Del_Del_type _⟩
  rw [serveUncompressed_openFailed p _ s' name d err hopen, hr, List.nil_append]

/-- An instance of `missing_file_404`: nothing exists, the client accepts brotli. -/
theorem missing_file_404_witness :
    RespondsError (ServeCompressedFile plainPlatform emptyFS ⟨[("Content-Encoding", ["x"])]⟩
      (getRequest "br") "a.js") "open a.js: file does not exist" 404 :=
  missing_file_404 plainPlatform emptyFS ⟨[("Content-Encoding", ["x"])]⟩ (getRequest "br") "a.js"
    "open a.js: file does not exist"
    (fun _ _ _ _ _ _ ho _ => by simp [emptyFS, memFS, anchor, FileSystem.Open] at ho)
    (by decide)

/-- C6, as it is stated, fails: `a.js` does not open, but its brotli sibling is a regular file
and the client accepts brotli, so the response is the sibling and not the error 404. -/
theorem missing_file_served_compressed :
    (anchor plainPlatform siblingOnlyFS).Open plainPlatform "a.js" =
      .error "open a.js: file does not exist" ∧
    (ServeCompressedFile plainPlatform siblingOnlyFS ⟨[]⟩ (getRequest "br") "a.js").map
        State.response =
      some [Event.serveContent
        ⟨[("Vary", ["Accept-Encoding"]), ("Content-Encoding", ["br"]), ("Content-Type", [jsType])]⟩
        "a.js" 7 (regularFile 7 [4, 2])] ∧
    ¬ RespondsError (ServeCompressedFile plainPlatform siblingOnlyFS ⟨[]⟩ (getRequest "br")
      "a.js") "open a.js: file does not exist" 404 := by
  have hrun : (ServeCompressedFile plainPlatform siblingOnlyFS ⟨[]⟩ (getRequest "br")
      "a.js").map State.response =
      some [Event.serveContent
        ⟨[("Vary", ["Accept-Encoding"]), ("Content-Encoding", ["br"]),
          ("Content-Type", [jsType])]⟩
        "a.js" 7 (regularFile 7 [4, 2])] := by decide
  refine ⟨by decide, hrun, ?_⟩
  rintro ⟨s, hdr, hs, hr, -, -⟩
  rw [hs, Option.map_some', hr] at hrun
  simp at hrun

/-- C7, as the code has it: when the compressed sibling is not served (the sibling of the
selected encoding, if an encoding is selected, is not a regular file) and `name` opens as a
directory, the response is the error 403 with the message `is a directory`, written with
neither a `Content-Encoding` nor a `Content-Type` header in the header map. -/
theorem directory_403 (p : Platform) (fs : FileSystem) (w : Header) (r : Request)
    (name : String) (file : File) (st : FileInfo)
    (hfall : ∀ enc ext cf st, selectEncoding (r.header.Get "Accept-Encoding") = some (enc, ext) →
      enc ≠ "" → (anchor p fs).Open p (name ++ ext) = .ok cf → cf.stat = .ok st →
      st.isDir = true)
    (hopen : (anchor p fs).Open p name = .ok file) (hstat : file.stat = .ok st)
    (hdir : st.isDir = true) :
    RespondsError (ServeCompressedFile p fs w r name) "is a directory" 403 := by
  obtain ⟨s', d, hrun, -, hr⟩ := ServeCompressedFile_fallback p fs w r name hfall
  refine ⟨_, (s'.header.Del "Content-Encoding").Del "Content-Type", hrun, ?_,
    Has_Del_Del_encoding _, Has_Del_Del_type _⟩
  rw [serveUncompressed_isDir p _ s' name d file st hopen hstat hdir, hr, List.nil_append]

/-- An instance of `directory_403`: `assets` is a directory without siblings. -/
theorem directory_403_witness :
    RespondsError (ServeCompressedFile plainPlatform dirFS ⟨[]⟩ (getRequest "gzip") "assets")
      "is a directory" 403 :=
  directory_403 plainPlatform dirFS ⟨[]⟩ (getRequest "gzip") "assets" (directory 3) ⟨true, 3⟩
    (fun enc ext cf st hsel _ ho _ => by
      have he : ext = ".gz" := by
        have h2 : selectEncoding ((getRequest "gzip").header.Get "Accept-Encoding") =
          some ("gzip", ".gz") := by decide
        rw [h2] at hsel
        simp only [Option.some.injEq, Prod.mk.injEq] at hsel
        exact hsel.2.symm
      subst he
      have hno : (anchor plainPlatform dirFS).Open plainPlatform ("assets" ++ ".gz") =
        .error "open assets.gz: file does not exist" := by decide
      rw [hno] at ho
      cases ho)
    (by decide) rfl rfl

/-- C7, as it is stated, fails: `assets` is a directory, but `assets.br` is a regular file and
the client accepts brotli, so the response is that file and not the error 403. -/
theorem directory_served_compressed :
    ((anchor plainPlatform dirWithSiblingFS).Open plainPlatform "assets" = .ok (directory 3) ∧
      (directory 3).stat = .ok ⟨true, 3⟩) ∧
    (ServeCompressedFile plainPlatform dirWithSiblingFS ⟨[]⟩ (getRequest "br") "assets").map
        State.response =
      some [Event.serveContent ⟨[("Vary", ["Accept-Encoding"]), ("Content-Encoding", ["br"])]⟩
        "assets" 7 (regularFile 7 [4, 2])] ∧
    ¬ RespondsError (ServeCompressedFile plainPlatform dirWithSiblingFS ⟨[]⟩ (getRequest "br")
      "assets") "is a directory" 403 := by
  have hrun : (ServeCompressedFile plainPlatform dirWithSiblingFS ⟨[]⟩ (getRequest "br")
      "assets").map State.response =
      some [Event.serveContent ⟨[("Vary", ["Accept-Encoding"]), ("Content-Encoding", ["br"])]⟩
        "assets" 7 (regularFile 7 [4, 2])] := by decide
  refine ⟨⟨by decide, rfl⟩, hrun, ?_⟩
  rintro ⟨s, hdr, hs, hr, -, -⟩
  rw [hs, Option.map_some', hr] at hrun
  simp at hrun

/-- C8, as the code has it: two file systems that differ only in that the sibling of the selected
encoding is a directory in the one and does not open in the other get the same response, the
same call with the same header map; and that header map has no `Content-Encoding` and no `Vary`
entry when the header map the function was called with had none. -/
theorem sibling_directory_as_missing (p : Platform) (fs₁ fs₂ : FileSystem) (w : Header)
    (r : Request) (name enc ext : String) (dir : File) (st : FileInfo) (err : String)
    (hsel : selectEncoding (r.header.Get "Accept-Encoding") = some (enc, ext)) (henc : enc ≠ "")
    (hopen₁ : (anchor p fs₁).Open p (name ++ ext) = .ok dir) (hstat : dir.stat = .ok st)
    (hdir : st.isDir = true)
    (hopen₂ : (anchor p fs₂).Open p (name ++ ext) = .error err)
    (hsame : ∀ path, path ≠ name ++ ext →
      (anchor p fs₁).Open p path = (anchor p fs₂).Open p path) :
    SameResponse (ServeCompressedFile p fs₁ w r name) (ServeCompressedFile p fs₂ w r name) ∧
    (w.Has "Content-Encoding" = false →
      ResponseLacks (ServeCompressedFile p fs₁ w r name) "Content-Encoding" ∧
        ResponseLacks (ServeCompressedFile p fs₂ w r name) "Content-Encoding") ∧
    (w.Has "Vary" = false →
      ResponseLacks (ServeCompressedFile p fs₁ w r name) "Vary" ∧
        ResponseLacks (ServeCompressedFile p fs₂ w r name) "Vary") := by
  obtain ⟨s₁, d₁, hrun₁, hh₁, hr₁⟩ := ServeCompressedFile_fallback p fs₁ w r name (by
    intro enc' ext' cf st' hsel' _ ho hs
    rw [hsel] at hsel'
    simp only [Option.some.injEq, Prod.mk.injEq] at hsel'
    rw [← hsel'.2, hopen₁] at ho
    cases ho
    rw [hstat] at hs
    cases hs
    exact hdir)
  obtain ⟨s₂, d₂, hrun₂, hh₂, hr₂⟩ := ServeCompressedFile_fallback p fs₂ w r name (by
    intro enc' ext' cf st' hsel' _ ho hs
    rw [hsel] at hsel'
    simp only [Option.some.injEq, Prod.mk.injEq] at hsel'
    rw [← hsel'.2, hopen₂] at ho
    cases ho)
  have hext : ext ≠ "" := selectEncoding_ext_ne _ enc ext hsel henc
  have hname : (anchor p fs₁).Open p name = (anchor p fs₂).Open p name :=
    hsame name fun e => append_ne_self name ext hext e.symm
  have hcongr := serveUncompressed_response_congr p (anchor p fs₁) (anchor p fs₂) s₁ s₂ name d₁ d₂
    hname (hh₁.trans hh₂.symm) (hr₁.trans hr₂.symm)
  obtain ⟨e, hdr, hresp, hhdr, hlack⟩ :=
    serveUncompressed_single p (anchor p fs₁) s₁ name d₁ hr₁
  have hresp₂ : (serveUncompressed p (anchor p fs₂) s₂ name d₂).response = [e] := by
    rw [← hcongr]
    exact hresp
  have hkey : ∀ key, key ≠ "Content-Type" → w.Has key = false → hdr.Has key = false := by
    intro key hne hw
    apply hlack
    rw [hh₁, Has_setContentType p w name key hne]
    exact hw
  refine ⟨⟨_, _, e, hrun₁, hrun₂, hresp, hresp₂⟩, fun hw => ?_, fun hw => ?_⟩
  · exact ⟨⟨_, e, hdr, hrun₁, hresp, hhdr, hkey _ (by decide) hw⟩,
      ⟨_, e, hdr, hrun₂, hresp₂, hhdr, hkey _ (by decide) hw⟩⟩
  · exact ⟨⟨_, e, hdr, hrun₁, hresp, hhdr, hkey _ (by decide) hw⟩,
      ⟨_, e, hdr, hrun₂, hresp₂, hhdr, hkey _ (by decide) hw⟩⟩

/-- An instance of `sibling_directory_as_missing`: `a.js.br` is a directory in the one file
system and missing in the other, and the client accepts brotli. -/
theorem sibling_directory_as_missing_witness :
    SameResponse (ServeCompressedFile plainPlatform siblingDirFS ⟨[]⟩ (getRequest "br") "a.js")
      (ServeCompressedFile plainPlatform noSiblingFS ⟨[]⟩ (getRequest "br") "a.js") ∧
    ((⟨[]⟩ : Header).Has "Content-Encoding" = false →
      ResponseLacks (ServeCompressedFile plainPlatform siblingDirFS ⟨[]⟩ (getRequest "br") "a.js")
          "Content-Encoding" ∧
        ResponseLacks (ServeCompressedFile plainPlatform noSiblingFS ⟨[]⟩ (getRequest "br") "a.js")
          "Content-Encoding") ∧
    ((⟨[]⟩ : Header).Has "Vary" = false →
      ResponseLacks (ServeCompressedFile plainPlatform siblingDirFS ⟨[]⟩ (getRequest "br") "a.js")
          "Vary" ∧
        ResponseLacks (ServeCompressedFile plainPlatform noSiblingFS ⟨[]⟩ (getRequest "br") "a.js")
          "Vary") :=
  sibling_directory_as_missing plainPlatform siblingDirFS noSiblingFS ⟨[]⟩ (getRequest "br")
    "a.js" "br" ".br" (directory 3) ⟨true, 3⟩ "open a.js.br: file does not exist"
    (by decide) (by decide) (by decide) rfl rfl (by decide) siblingDirFS_differs_at_sibling

/-- C8, as it is stated, fails: the two file systems differ only in that `a.js.br` is a directory
in the one and missing in the other, and the response, the uncompressed `a.js` for both, has the
`Vary` header that the response writer came with. -/
theorem sibling_directory_keeps_vary :
    (selectEncoding ((getRequest "br").header.Get "Accept-Encoding") = some ("br", ".br") ∧
      (anchor plainPlatform siblingDirFS).Open plainPlatform ("a.js" ++ ".br") =
        .ok (directory 3) ∧
      (directory 3).stat = .ok ⟨true, 3⟩ ∧
      (anchor plainPlatform noSiblingFS).Open plainPlatform ("a.js" ++ ".br") =
        .error "open a.js.br: file does not exist" ∧
      ∀ path, path ≠ "a.js" ++ ".br" →
        (anchor plainPlatform siblingDirFS).Open plainPlatform path =
          (anchor plainPlatform noSiblingFS).Open plainPlatform path) ∧
    (ServeCompressedFile plainPlatform siblingDirFS ⟨[("Vary", ["Origin"])]⟩ (getRequest "br")
        "a.js").map State.response =
      some [Event.serveContent ⟨[("Content-Type", [jsType]), ("Vary", ["Origin"])]⟩ "a.js" 5
        (regularFile 5 [1, 2, 3])] ∧
    ¬ ResponseLacks (ServeCompressedFile plainPlatform siblingDirFS ⟨[("Vary", ["Origin"])]⟩
      (getRequest "br") "a.js") "Vary" := by
  have hrun : (ServeCompressedFile plainPlatform siblingDirFS ⟨[("Vary", ["Origin"])]⟩
      (getRequest "br") "a.js").map State.response =
      some [Event.serveContent ⟨[("Content-Type", [jsType]), ("Vary", ["Origin"])]⟩ "a.js" 5
        (regularFile 5 [1, 2, 3])] := by decide
  refine ⟨⟨by decide, by decide, rfl, by decide, siblingDirFS_differs_at_sibling⟩, hrun, ?_⟩
  rintro ⟨s, e, hdr, hs, hr, he, hl⟩
  rw [hs, Option.map_some', hr] at hrun
  simp only [Option.some.injEq, List.cons.injEq, and_true] at hrun
  rw [hrun] at he
  simp only [Event.header?, Option.some.injEq] at he
  rw [← he] at hl
  revert hl
  decide

/-- C9, as the code has it: when the request has no `Accept-Encoding` header and the header map
the function is called with has no `Content-Encoding` entry, the response is written with no
`Content-Encoding` entry in the header map, whatever the file system holds. -/
theorem no_accept_encoding_no_content_encoding (p : Platform) (fs : FileSystem) (w : Header)
    (r : Request) (name : String) (hnone : r.header.Get "Accept-Encoding" = "")
    (hw : w.Has "Content-Encoding" = false) :
    ResponseLacks (ServeCompressedFile p fs w r name) "Content-Encoding" := by
  obtain ⟨s', d, hrun, hh, hr⟩ := ServeCompressedFile_fallback p fs w r name (by
    intro enc ext cf st hsel henc _ _
    rw [hnone] at hsel
    have h0 : selectEncoding "" = some ("", "") := rfl
    rw [h0] at hsel
    simp only [Option.some.injEq, Prod.mk.injEq] at hsel
    exact absurd hsel.1.symm henc)
  obtain ⟨e, hdr, hresp, hhdr, hlack⟩ := serveUncompressed_single p (anchor p fs) s' name d hr
  refine ⟨_, e, hdr, hrun, hresp, hhdr, hlack _ ?_⟩
  rw [hh, Has_setContentType p w name _ (by decide)]
  exact hw

/-- An instance of `no_accept_encoding_no_content_encoding`: `a.js` has a gzip sibling, and the
request has no `Accept-Encoding` header. -/
theorem no_accept_encoding_no_content_encoding_witness :
    ResponseLacks (ServeCompressedFile plainPlatform gzipOnlyFS ⟨[("Vary", ["Origin"])]⟩
      (getRequest "") "a.js") "Content-Encoding" :=
  no_accept_encoding_no_content_encoding plainPlatform gzipOnlyFS ⟨[("Vary", ["Origin"])]⟩
    (getRequest "") "a.js" (by decide) (by decide)

/-- C9, as it is stated, fails: the request has no `Accept-Encoding` header, and the response,
the uncompressed `a.js`, has the `Content-Encoding` header that the response writer came
with. -/
theorem preset_content_encoding_kept :
    (getRequest "").header.Get "Accept-Encoding" = "" ∧
    (ServeCompressedFile plainPlatform gzipOnlyFS ⟨[("Content-Encoding", ["identity"])]⟩
        (getRequest "") "a.js").map State.response =
      some [Event.serveContent
        ⟨[("Content-Type", [jsType]), ("Content-Encoding", ["identity"])]⟩ "a.js" 5
        (regularFile 5 [1, 2, 3])] ∧
    ¬ ResponseLacks (ServeCompressedFile plainPlatform gzipOnlyFS
      ⟨[("Content-Encoding", ["identity"])]⟩ (getRequest "") "a.js") "Content-Encoding" := by
  have hrun : (ServeCompressedFile plainPlatform gzipOnlyFS ⟨[("Content-Encoding", ["identity"])]⟩
      (getRequest "") "a.js").map State.response =
      some [Event.serveContent
        ⟨[("Content-Type", [jsType]), ("Content-Encoding", ["identity"])]⟩ "a.js" 5
        (regularFile 5 [1, 2, 3])] := by decide
  refine ⟨by decide, hrun, ?_⟩
  rintro ⟨s, e, hdr, hs, hr, he, hl⟩
  rw [hs, Option.map_some', hr] at hrun
  simp only [Option.some.injEq, List.cons.injEq, and_true] at hrun
  rw [hrun] at he
  simp only [Event.header?, Option.some.injEq] at he
  rw [← he] at hl
  revert hl
  decide

/-- C10: when `name` is a regular file and `selectEncoding` returns no encoding, the function
opens `name`, serves the file it opened under its modification time, and closes it; it opens no
sibling `name ++ ext`. -/
theorem uncompressed_round_trip (p : Platform) (fs : FileSystem) (w : Header) (r : Request)
    (name : String) (file : File) (st : FileInfo)
    (hsel : (selectEncoding (r.header.Get "Accept-Encoding")).map Prod.fst = some "")
    (hopen : (anchor p fs).Open p name = .ok file) (hstat : file.stat = .ok st)
    (hreg : st.isDir = false) :
    ∃ s hdr, ServeCompressedFile p fs w r name = some s ∧
      s.log = [Event.opened name, Event.stat name,
        Event.serveContent hdr name st.modTime file, Event.closed name] ∧
      s.response = [Event.serveContent hdr name st.modTime file] ∧
      ∀ ext, ext ≠ "" →
        Event.opened (name ++ ext) ∉ s.log ∧ Event.openFailed (name ++ ext) ∉ s.log := by
  obtain ⟨enc, ext, hs⟩ := selectEncoding_returns (r.header.Get "Accept-Encoding")
  rw [hs] at hsel
  simp only [Option.map_some', Option.some.injEq] at hsel
  subst hsel
  have hlog : (serveNegotiated p (anchor p fs) (setContentType p { header := w, log := [] } name)
      name "" ext).log = [Event.opened name, Event.stat name,
        Event.serveContent (setContentType p { header := w, log := [] } name).header name
          st.modTime file, Event.closed name] := by
    simp [serveNegotiated, serveUncompressed, hopen, hstat, hreg, State.emit, State.ServeContent,
      State.runDeferred, log_setContentType]
  refine ⟨_, _, by unfold ServeCompressedFile; simp only [hs], hlog, ?_, ?_⟩
  · simp [State.response, hlog, Event.isResponse]
  · intro ext' hne
    rw [hlog]
    have hn : name ++ ext' ≠ name := append_ne_self name ext' hne
    simp [hn]

/-- An instance of `uncompressed_round_trip`: `a.js` has a gzip sibling, and the client accepts
deflate only. -/
theorem uncompressed_round_trip_witness :
    ∃ s hdr, ServeCompressedFile plainPlatform gzipOnlyFS ⟨[]⟩ (getRequest "deflate") "a.js" =
        some s ∧
      s.log = [Event.opened "a.js", Event.stat "a.js",
        Event.serveContent hdr "a.js" 5 (regularFile 5 [1, 2, 3]), Event.closed "a.js"] ∧
      s.response = [Event.serveContent hdr "a.js" 5 (regularFile 5 [1, 2, 3])] ∧
      ∀ ext, ext ≠ "" →
        Event.opened ("a.js" ++ ext) ∉ s.log ∧ Event.openFailed ("a.js" ++ ext) ∉ s.log :=
  uncompressed_round_trip plainPlatform gzipOnlyFS ⟨[]⟩ (getRequest "deflate") "a.js"
    (regularFile 5 [1, 2, 3]) ⟨false, 5⟩ (by decide) (by decide) rfl rfl

/-! ## Facts about the log -/

theorem log_runDeferred (s : State) (deferred : List String) :
    (s.runDeferred deferred).log = s.log ++ deferred.map Event.closed := by
  induction deferred generalizing s with
  | nil => simp [State.runDeferred]
  | cons d ds ih => simp [State.runDeferred, ih, State.emit]

/-- The log of the fallback: what was logged before, the events of lines 82-107, and the
deferred `Close` calls. -/
theorem serveUncompressed_log (p : Platform) (fs : FileSystem) (s : State) (name : String)
    (deferred : List String) :
    (serveUncompressed p fs s name deferred).log =
      s.log ++
        (match fs.Open p name with
         | .error err =>
           [Event.openFailed name,
            Event.error ((s.header.Del "Content-Encoding").Del "Content-Type") err 404]
         | .ok file =>
           [Event.opened name, Event.stat name,
            (match file.stat with
             | .error err =>
               Event.error ((s.header.Del "Content-Encoding").Del "Content-Type") err 500
             | .ok st =>
               if st.isDir then
                 Event.error ((s.header.Del "Content-Encoding").Del "Content-Type")
                   "is a directory" 403
               else Event.serveContent s.header name st.modTime file),
            Event.closed name]) ++
        deferred.map Event.closed := by
  unfold serveUncompressed
  cases fs.Open p name with
  | error err => simp [log_runDeferred, State.Error, State.emit]
  | ok file =>
    cases hstat : file.stat with
    | error err => simp [hstat, log_runDeferred, State.Error, State.emit]
    | ok st =>
      cases hdir : st.isDir <;>
        simp [hstat, hdir, log_runDeferred, State.Error, State.ServeContent, State.emit]

theorem trackHandles_append (held : List String) (l₁ l₂ : List Event) :
    trackHandles held (l₁ ++ l₂) = (trackHandles held l₁).bind fun h => trackHandles h l₂ := by
  induction l₁ generalizing held with
  | nil => simp [trackHandles]
  | cons e es ih =>
    cases e with
    | closed n =>
      rw [List.cons_append]
      simp only [trackHandles]
      split
      · exact ih _
      · rfl
    | opened n => exact ih _
    | openFailed n => exact ih _
    | stat n => exact ih _
    | serveContent h n m f => exact ih _
    | error h m c => exact ih _

theorem trackHandles_closeAll (held : List String) :
    trackHandles held (held.map Event.closed) = some [] := by
  induction held with
  | nil => rfl
  | cons d ds ih => simp [trackHandles, ih]

/-- The fallback closes the file it opens and the files whose `Close` was deferred. -/
theorem trackHandles_serveUncompressed (p : Platform) (fs : FileSystem) (s : State)
    (name : String) (deferred : List String) (hs : trackHandles [] s.log = some deferred) :
    trackHandles [] (serveUncompressed p fs s name deferred).log = some [] := by
  rw [serveUncompressed_log, List.append_assoc, trackHandles_append, hs, Option.some_bind,
    trackHandles_append]
  cases fs.Open p name with
  | error err => simp [trackHandles, trackHandles_closeAll]
  | ok file =>
    cases hstat : file.stat with
    | error err => simp [hstat, trackHandles, trackHandles_closeAll]
    | ok st => cases hdir : st.isDir <;> simp [hstat, hdir, trackHandles, trackHandles_closeAll]

/-- The run of `ServeCompressedFile` once `selectEncoding` has returned. -/
theorem ServeCompressedFile_eq (p : Platform) (fs : FileSystem) (w : Header) (r : Request)
    (name enc ext : String)
    (hsel : selectEncoding (r.header.Get "Accept-Encoding") = some (enc, ext)) :
    ServeCompressedFile p fs w r name =
      some (serveNegotiated p (anchor p fs) (setContentType p { header := w, log := [] } name)
        name enc ext) := by
  unfold ServeCompressedFile
  simp only [hsel]

/-- The two ways through `serveNegotiated`: the sibling of the selected encoding is a regular
file and is served, or the fallback runs, after no attempt, after a failed `Open` of the sibling,
or after an `Open` of a sibling that is then left alone (its `Close` deferred). -/
theorem serveNegotiated_cases (p : Platform) (fs : FileSystem) (s : State)
    (name enc ext : String) :
    (∃ cf st, enc ≠ "" ∧ fs.Open p (name ++ ext) = .ok cf ∧ cf.stat = .ok st ∧
      st.isDir = false ∧
      serveNegotiated p fs s name enc ext =
        { header := (s.header.Set "Content-Encoding" enc).Add "Vary" "Accept-Encoding",
          log := s.log ++ [Event.opened (name ++ ext), Event.stat (name ++ ext)] ++
            (match fs.Open p name with
             | .ok _ => [Event.opened name, Event.closed name]
             | .error _ => [Event.openFailed name]) ++
            [Event.serveContent
              ((s.header.Set "Content-Encoding" enc).Add "Vary" "Accept-Encoding") name
              st.modTime cf, Event.closed (name ++ ext)] }) ∨
    (∃ attempt deferred,
      ((attempt = [] ∧ deferred = []) ∨
        (attempt = [Event.openFailed (name ++ ext)] ∧ deferred = []) ∨
        (attempt = [Event.opened (name ++ ext), Event.stat (name ++ ext)] ∧
          deferred = [name ++ ext])) ∧
      (enc ≠ "" → ∀ cf st, fs.Open p (name ++ ext) = .ok cf → cf.stat = .ok st →
        st.isDir = true) ∧
      serveNegotiated p fs s name enc ext =
        serveUncompressed p fs { header := s.header, log := s.log ++ attempt } name
          deferred) := by
  by_cases henc : enc = ""
  · refine Or.inr ⟨[], [], Or.inl ⟨rfl, rfl⟩, fun h => absurd henc h, ?_⟩
    simp [serveNegotiated, henc]
  · cases hopen : fs.Open p (name ++ ext) with
    | error err =>
      refine Or.inr ⟨_, [], Or.inr (Or.inl ⟨rfl, rfl⟩), ?_, ?_⟩
      · intro _ cf st ho
        cases ho
      · simp [serveNegotiated, henc, hopen, State.emit]
    | ok cf =>
      cases hstat : cf.stat with
      | error err =>
        refine Or.inr ⟨_, _, Or.inr (Or.inr ⟨rfl, rfl⟩), ?_, ?_⟩
        · intro _ cf' st' ho hs
          cases ho
          rw [hstat] at hs
          cases hs
        · simp [serveNegotiated, henc, hopen, hstat, State.emit]
      | ok st =>
        cases hdir : st.isDir with
        | true =>
          refine Or.inr ⟨_, _, Or.inr (Or.inr ⟨rfl, rfl⟩), ?_, ?_⟩
          · intro _ cf' st' ho hs
            cases ho
            rw [hstat] at hs
            cases hs
            exact hdir
          · simp [serveNegotiated, henc, hopen, hstat, hdir, State.emit]
        | false =>
          refine Or.inl ⟨cf, st, henc, rfl, hstat, hdir, ?_⟩
          cases ho : fs.Open p name <;>
            simp [serveNegotiated, henc, hopen, hstat, hdir, ho, State.runDeferred,
              State.ServeContent, State.emit]

/-! ## Further claims about `ServeCompressedFile` -/

/-- C11: on every path of `ServeCompressedFile`, every file that an `Open` returned is closed
when the function returns, and no file is closed that is not open. -/
theorem every_handle_closed (p : Platform) (fs : FileSystem) (w : Header) (r : Request)
    (name : String) :
    ∃ s, ServeCompressedFile p fs w r name = some s ∧ trackHandles [] s.log = some [] := by
  obtain ⟨enc, ext, hsel⟩ := selectEncoding_returns (r.header.Get "Accept-Encoding")
  refine ⟨_, ServeCompressedFile_eq p fs w r name enc ext hsel, ?_⟩
  have h0 := log_setContentType p w name
  rcases serveNegotiated_cases p (anchor p fs)
    (setContentType p { header := w, log := [] } name) name enc ext with
    ⟨cf, st, -, -, -, -, hrun⟩ | ⟨attempt, d, hat, -, hrun⟩
  · rw [hrun, h0]
    cases (anchor p fs).Open p name <;> simp [trackHandles]
  · rw [hrun]
    apply trackHandles_serveUncompressed
    rcases hat with ⟨rfl, rfl⟩ | ⟨rfl, rfl⟩ | ⟨rfl, rfl⟩ <;> simp [h0, trackHandles]

/-- C12: when the fallback is reached (the sibling of the selected encoding, if an encoding is
selected, is not a regular file), `name` opens and its `Stat` fails, the response is the error
500 with the message of the stat error, written with neither a `Content-Encoding` nor a
`Content-Type` header in the header map. -/
theorem stat_failure_500 (p : Platform) (fs : FileSystem) (w : Header) (r : Request)
    (name : String) (file : File) (err : String)
    (hfall : ∀ enc ext cf st, selectEncoding (r.header.Get "Accept-Encoding") = some (enc, ext) →
      enc ≠ "" → (anchor p fs).Open p (name ++ ext) = .ok cf → cf.stat = .ok st →
      st.isDir = true)
    (hopen : (anchor p fs).Open p name = .ok file) (hstat : file.stat = .error err) :
    RespondsError (ServeCompressedFile p fs w r name) err 500 := by
  obtain ⟨s', d, hrun, -, hr⟩ := ServeCompressedFile_fallback p fs w r name hfall
  refine ⟨_, (s'.header.Del "Content-Encoding").Del "Content-Type", hrun, ?_,
    Has_Del_Del_encoding _, Has_Del_Del_type _⟩
  rw [serveUncompressed_statFailed p _ s' name d file err hopen hstat, hr, List.nil_append]

/-- An instance of `stat_failure_500`: the `Stat` of `a.js` fails, no encoding is selected. -/
theorem stat_failure_500_witness :
    RespondsError (ServeCompressedFile plainPlatform statFailFS ⟨[("Content-Encoding", ["x"])]⟩
      (getRequest "identity") "a.js") "stat: input/output error" 500 :=
  stat_failure_500 plainPlatform statFailFS ⟨[("Content-Encoding", ["x"])]⟩
    (getRequest "identity") "a.js" brokenFile "stat: input/output error"
    (fun enc ext cf st hsel henc _ _ => by
      have h2 : selectEncoding ((getRequest "identity").header.Get "Accept-Encoding") =
        some ("", "") := by decide
      rw [h2] at hsel
      simp only [Option.some.injEq, Prod.mk.injEq] at hsel
      exact absurd hsel.1.symm henc)
    (by decide) rfl

theorem Get_Del_self (h : Header) (k : String) : (h.Del k).Get k = "" := by
  simp [Header.Get, Header.Values, Header.Del, lookup_filter_self]

/-- C13: when the sibling of the selected encoding does not open, the response is the one that
the same request without its `Accept-Encoding` header gets, from the same file system, for the
same name and with the same response writer. -/
theorem missing_sibling_as_no_accept_encoding (p : Platform) (fs : FileSystem) (w : Header)
    (r : Request) (name enc ext err : String)
    (hsel : selectEncoding (r.header.Get "Accept-Encoding") = some (enc, ext))
    (hopen : (anchor p fs).Open p (name ++ ext) = .error err) :
    SameResponse (ServeCompressedFile p fs w r name)
      (ServeCompressedFile p fs w (withoutAcceptEncoding r) name) := by
  obtain ⟨s₁, d₁, hrun₁, hh₁, hr₁⟩ := ServeCompressedFile_fallback p fs w r name (by
    intro enc' ext' cf st' hsel' _ ho _
    rw [hsel] at hsel'
    simp only [Option.some.injEq, Prod.mk.injEq] at hsel'
    rw [← hsel'.2, hopen] at ho
    cases ho)
  obtain ⟨s₂, d₂, hrun₂, hh₂, hr₂⟩ :=
    ServeCompressedFile_fallback p fs w (withoutAcceptEncoding r) name (by
      intro enc' ext' cf st' hsel' henc' _ _
      have hget : (withoutAcceptEncoding r).header.Get "Accept-Encoding" = "" :=
        Get_Del_self _ _
      rw [hget] at hsel'
      have h0 : selectEncoding "" = some ("", "") := rfl
      rw [h0] at hsel'
      simp only [Option.some.injEq, Prod.mk.injEq] at hsel'
      exact absurd hsel'.1.symm henc')
  have hcongr := serveUncompressed_response_congr p (anchor p fs) (anchor p fs) s₁ s₂ name d₁ d₂
    rfl (hh₁.trans hh₂.symm) (hr₁.trans hr₂.symm)
  obtain ⟨e, hdr, hresp, -, -⟩ := serveUncompressed_single p (anchor p fs) s₁ name d₁ hr₁
  exact ⟨_, _, e, hrun₁, hrun₂, hresp, by rw [← hcongr]; exact hresp⟩

/-- An instance of `missing_sibling_as_no_accept_encoding`: `a.js` has no brotli sibling and the
client accepts brotli. -/
theorem missing_sibling_as_no_accept_encoding_witness :
    SameResponse (ServeCompressedFile plainPlatform gzipOnlyFS ⟨[]⟩ (getRequest "br") "a.js")
      (ServeCompressedFile plainPlatform gzipOnlyFS ⟨[]⟩ (withoutAcceptEncoding (getRequest "br"))
        "a.js") :=
  missing_sibling_as_no_accept_encoding plainPlatform gzipOnlyFS ⟨[]⟩ (getRequest "br") "a.js"
    "br" ".br" "open a.js.br: file does not exist" (by decide) (by decide)

/-- The response of a log that holds one response call. -/
theorem filter_isResponse_decomposition (pre post : List Event) (e : Event)
    (hpre : ∀ x ∈ pre, x.isResponse = false) (he : e.isResponse = true)
    (hpost : ∀ x ∈ post, ∃ n, x = Event.closed n) :
    (pre ++ e :: post).filter Event.isResponse = [e] := by
  have h1 : pre.filter Event.isResponse = [] := by
    rw [List.filter_eq_nil_iff]
    intro x hx
    simp [hpre x hx]
  have h2 : post.filter Event.isResponse = [] := by
    rw [List.filter_eq_nil_iff]
    intro x hx
    obtain ⟨n, rfl⟩ := hpost x hx
    simp [Event.isResponse]
  rw [List.filter_append, List.filter_cons, h1, h2, he]
  rfl

/-- The fallback writes one response, one of its four, and after it only closes files. -/
theorem serveUncompressed_terminal (p : Platform) (fs : FileSystem) (s : State) (name : String)
    (deferred : List String) (hs : ∀ x ∈ s.log, x.isResponse = false) :
    ∃ e pre post, (serveUncompressed p fs s name deferred).log = pre ++ e :: post ∧
      (∀ x ∈ pre, x.isResponse = false) ∧ (∀ x ∈ post, ∃ n, x = Event.closed n) ∧
      ((∃ hdr file st, fs.Open p name = .ok file ∧ file.stat = .ok st ∧ st.isDir = false ∧
          e = Event.serveContent hdr name st.modTime file) ∨
        (∃ hdr msg, e = Event.error hdr msg 404) ∨
        (∃ hdr msg, e = Event.error hdr msg 500) ∨
        (∃ hdr msg, e = Event.error hdr msg 403)) := by
  have hclosed : ∀ x ∈ deferred.map Event.closed, ∃ n, x = Event.closed n := by
    intro x hx
    obtain ⟨n, -, rfl⟩ := List.mem_map.mp hx
    exact ⟨n, rfl⟩
  rw [serveUncompressed_log]
  cases ho : fs.Open p name with
  | error err =>
    refine ⟨Event.error ((s.header.Del "Content-Encoding").Del "Content-Type") err 404,
      s.log ++ [Event.openFailed name], deferred.map Event.closed, by simp, ?_, hclosed,
      Or.inr (Or.inl ⟨_, _, rfl⟩)⟩
    intro x hx
    rcases List.mem_append.mp hx with h | h
    · exact hs x h
    · rw [List.mem_singleton.mp h]
      rfl
  | ok file =>
    have hpre : ∀ x ∈ s.log ++ [Event.opened name, Event.stat name], x.isResponse = false := by
      intro x hx
      rcases List.mem_append.mp hx with h | h
      · exact hs x h
      · simp only [List.mem_cons, List.mem_singleton, List.not_mem_nil, or_false] at h
        rcases h with rfl | rfl <;> rfl
    have hpost : ∀ x ∈ Event.closed name :: deferred.map Event.closed,
        ∃ n, x = Event.closed n := by
      intro x hx
      rcases List.mem_cons.mp hx with rfl | h
      · exact ⟨name, rfl⟩
      · exact hclosed x h
    cases hstat : file.stat with
    | error err =>
      exact ⟨Event.error ((s.header.Del "Content-Encoding").Del "Content-Type") err 500,
        s.log ++ [Event.opened name, Event.stat name],
        Event.closed name :: deferred.map Event.closed, by simp [hstat], hpre, hpost,
        Or.inr (Or.inr (Or.inl ⟨_, _, rfl⟩))⟩
    | ok st =>
      cases hdir : st.isDir with
      | true =>
        exact ⟨Event.error ((s.header.Del "Content-Encoding").Del "Content-Type")
            "is a directory" 403,
          s.log ++ [Event.opened name, Event.stat name],
          Event.closed name :: deferred.map Event.closed, by simp [hstat, hdir], hpre, hpost,
          Or.inr (Or.inr (Or.inr ⟨_, _, rfl⟩))⟩
      | false =>
        exact ⟨Event.serveContent s.header name st.modTime file,
          s.log ++ [Event.opened name, Event.stat name],
          Event.closed name :: deferred.map Event.closed, by simp [hstat, hdir], hpre, hpost,
          Or.inl ⟨_, file, st, rfl, hstat, hdir, rfl⟩⟩

/-- C14: every run of `ServeCompressedFile` writes exactly one response, one of the five: the
log is a stretch without a response call, the response call, and then `Close` calls only. -/
theorem exactly_one_response (p : Platform) (fs : FileSystem) (w : Header) (r : Request)
    (name : String) :
    ∃ s e pre post, ServeCompressedFile p fs w r name = some s ∧
      s.log = pre ++ e :: post ∧
      (∀ x ∈ pre, x.isResponse = false) ∧ (∀ x ∈ post, ∃ n, x = Event.closed n) ∧
      s.response = [e] ∧ TerminalAction p (anchor p fs) r name e := by
  obtain ⟨enc, ext, hsel⟩ := selectEncoding_returns (r.header.Get "Accept-Encoding")
  have h0 := log_setContentType p w name
  have key : ∃ e pre post,
      (serveNegotiated p (anchor p fs) (setContentType p { header := w, log := [] } name) name
        enc ext).log = pre ++ e :: post ∧
      (∀ x ∈ pre, x.isResponse = false) ∧ (∀ x ∈ post, ∃ n, x = Event.closed n) ∧
      TerminalAction p (anchor p fs) r name e := by
    rcases serveNegotiated_cases p (anchor p fs)
      (setContentType p { header := w, log := [] } name) name enc ext with
      ⟨cf, st, henc, hopen, hstat, hdir, hrun⟩ | ⟨attempt, d, hat, -, hrun⟩
    · rw [hrun, h0]
      refine ⟨Event.serveContent
          (((setContentType p { header := w, log := [] } name).header.Set "Content-Encoding"
            enc).Add "Vary" "Accept-Encoding") name st.modTime cf,
        [Event.opened (name ++ ext), Event.stat (name ++ ext)] ++
          (match (anchor p fs).Open p name with
           | .ok _ => [Event.opened name, Event.closed name]
           | .error _ => [Event.openFailed name]),
        [Event.closed (name ++ ext)], by simp, ?_, ?_,
        Or.inl ⟨_, enc, ext, cf, st, hsel, henc, hopen, hstat, hdir, rfl⟩⟩
      · intro x hx
        rcases List.mem_append.mp hx with h | h
        · simp only [List.mem_cons, List.mem_singleton, List.not_mem_nil, or_false] at h
          rcases h with rfl | rfl <;> rfl
        · cases ho : (anchor p fs).Open p name with
          | ok f =>
            rw [ho] at h
            simp only [List.mem_cons, List.mem_singleton, List.not_mem_nil, or_false] at h
            rcases h with rfl | rfl <;> rfl
          | error err =>
            rw [ho] at h
            rw [List.mem_singleton.mp h]
            rfl
      · intro x hx
        exact ⟨_, List.mem_singleton.mp hx⟩
    · rw [hrun]
      obtain ⟨e, pre, post, hlog, hpre, hpost, hkind⟩ :=
        serveUncompressed_terminal p (anchor p fs)
          { header := (setContentType p { header := w, log := [] } name).header,
            log := (setContentType p { header := w, log := [] } name).log ++ attempt } name d
          (by
            intro x hx
            rw [h0, List.nil_append] at hx
            rcases hat with ⟨rfl, -⟩ | ⟨rfl, -⟩ | ⟨rfl, -⟩
            · cases hx
            · rw [List.mem_singleton.mp hx]
              rfl
            · simp only [List.mem_cons, List.mem_singleton, List.not_mem_nil, or_false] at hx
              rcases hx with rfl | rfl <;> rfl)
      exact ⟨e, pre, post, hlog, hpre, hpost, Or.inr hkind⟩
  obtain ⟨e, pre, post, hlog, hpre, hpost, hkind⟩ := key
  have he : e.isResponse = true := by
    rcases hkind with ⟨_, _, _, _, _, _, _, _, _, _, rfl⟩ | ⟨_, _, _, _, _, _, rfl⟩ |
      ⟨_, _, rfl⟩ | ⟨_, _, rfl⟩ | ⟨_, _, rfl⟩ <;> rfl
  refine ⟨_, e, pre, post, ServeCompressedFile_eq p fs w r name enc ext hsel, hlog, hpre, hpost,
    ?_, hkind⟩
  rw [State.response, hlog]
  exact filter_isResponse_decomposition pre post e hpre he hpost

theorem Header.Values_Set_of_ne (h : Header) (k k' v : String) (hne : k' ≠ k) :
    (h.Set k v).Values k' = h.Values k' := by
  have hk : (k' == k) = false := by simpa using hne
  simp [Header.Values, Header.Set, Header.Del, List.lookup_cons, hk,
    lookup_filter_of_ne _ _ _ hne]

/-- A selected encoding is `br` with `.br` or `gzip` with `.gz`. -/
theorem selectEncoding_selected (h enc ext : String)
    (hsel : selectEncoding h = some (enc, ext)) (henc : enc ≠ "") :
    (enc = "br" ∧ ext = ".br") ∨ (enc = "gzip" ∧ ext = ".gz") := by
  rw [selectEncoding_eq] at hsel
  split_ifs at hsel <;> simp only [Option.some.injEq, Prod.mk.injEq] at hsel
  · exact Or.inl ⟨hsel.1.symm, hsel.2.symm⟩
  · exact Or.inr ⟨hsel.1.symm, hsel.2.symm⟩
  · exact absurd hsel.1.symm henc

/-- The response of the compressed path. -/
theorem response_compressed (pre : List Event) (orig : List Event) (e : Event) (n : String)
    (hpre : pre = []) (horig : ∀ x ∈ orig, x.isResponse = false) (he : e.isResponse = true)
    (hdr : Header) :
    ({ header := hdr,
       log := pre ++ [Event.opened n, Event.stat n] ++ orig ++ [e, Event.closed n] } :
      State).response = [e] := by
  subst hpre
  have h1 : orig.filter Event.isResponse = [] := by
    rw [List.filter_eq_nil_iff]
    intro x hx
    simp [horig x hx]
  have h2 : (Event.opened n).isResponse = false := rfl
  have h3 : (Event.stat n).isResponse = false := rfl
  have h4 : (Event.closed n).isResponse = false := rfl
  simp [State.response, List.filter_append, List.filter_cons, h1, h2, h3, h4, he]

theorem orig_events_not_response (p : Platform) (fs : FileSystem) (name : String) :
    ∀ x ∈ (match fs.Open p name with
      | .ok _ => [Event.opened name, Event.closed name]
      | .error _ => [Event.openFailed name]), x.isResponse = false := by
  intro x hx
  cases ho : fs.Open p name with
  | ok f =>
    rw [ho] at hx
    simp only [List.mem_cons, List.mem_singleton, List.not_mem_nil, or_false] at hx
    rcases hx with rfl | rfl <;> rfl
  | error err =>
    rw [ho] at hx
    rw [List.mem_singleton.mp hx]
    rfl

/-- The response of the fallback, with what it says about the header map: an error is written
with `Content-Encoding` and `Content-Type` deleted, the file with the header map as it was. -/
theorem serveUncompressed_reply (p : Platform) (fs : FileSystem) (s : State) (name : String)
    (d : List String) (hr : s.response = []) :
    ∃ e hdr, (serveUncompressed p fs s name d).response = [e] ∧ e.header? = some hdr ∧
      ((∃ file st, fs.Open p name = .ok file ∧ file.stat = .ok st ∧ st.isDir = false ∧
          e = Event.serveContent hdr name st.modTime file ∧ hdr = s.header) ∨
        (∃ msg code, e = Event.error hdr msg code ∧ (code = 404 ∨ code = 500 ∨ code = 403) ∧
          hdr = (s.header.Del "Content-Encoding").Del "Content-Type")) := by
  cases ho : fs.Open p name with
  | error err =>
    refine ⟨Event.error ((s.header.Del "Content-Encoding").Del "Content-Type") err 404, _, ?_,
      rfl, Or.inr ⟨_, _, rfl, Or.inl rfl, rfl⟩⟩
    rw [serveUncompressed_openFailed p fs s name d err ho, hr, List.nil_append]
  | ok file =>
    cases hstat : file.stat with
    | error err =>
      refine ⟨Event.error ((s.header.Del "Content-Encoding").Del "Content-Type") err 500, _, ?_,
        rfl, Or.inr ⟨_, _, rfl, Or.inr (Or.inl rfl), rfl⟩⟩
      rw [serveUncompressed_statFailed p fs s name d file err ho hstat, hr, List.nil_append]
    | ok st =>
      cases hdir : st.isDir with
      | true =>
        refine ⟨Event.error ((s.header.Del "Content-Encoding").Del "Content-Type")
          "is a directory" 403, _, ?_, rfl, Or.inr ⟨_, _, rfl, Or.inr (Or.inr rfl), rfl⟩⟩
        rw [serveUncompressed_isDir p fs s name d file st ho hstat hdir, hr, List.nil_append]
      | false =>
        refine ⟨Event.serveContent s.header name st.modTime file, _, ?_, rfl,
          Or.inl ⟨file, st, rfl, hstat, hdir, rfl, rfl⟩⟩
        rw [serveUncompressed_regular p fs s name d file st ho hstat hdir, hr, List.nil_append]

theorem response_attempt (s : State) (attempt : List Event) (deferred : List String)
    (name ext : String) (hs : s.log = [])
    (hat : (attempt = [] ∧ deferred = []) ∨
      (attempt = [Event.openFailed (name ++ ext)] ∧ deferred = []) ∨
      (attempt = [Event.opened (name ++ ext), Event.stat (name ++ ext)] ∧
        deferred = [name ++ ext])) :
    ({ header := s.header, log := s.log ++ attempt } : State).response = [] := by
  rw [hs]
  rcases hat with ⟨rfl, -⟩ | ⟨rfl, -⟩ | ⟨rfl, -⟩ <;>
    simp [State.response, List.filter_cons, Event.isResponse]

/-- C15: when the header map the function is called with has neither a `Content-Encoding` nor a
`Vary` entry, the response has one only when it is the sibling of the selected encoding, and
then `Content-Encoding` is that encoding, `br` or `gzip`, and `Vary` holds `Accept-Encoding`;
the uncompressed file and the errors are written with neither. -/
theorem encoding_headers_only_with_sibling (p : Platform) (fs : FileSystem) (w : Header)
    (r : Request) (name : String) (hce : w.Has "Content-Encoding" = false)
    (hvary : w.Has "Vary" = false) :
    ∃ s e hdr, ServeCompressedFile p fs w r name = some s ∧ s.response = [e] ∧
      e.header? = some hdr ∧
      ((∃ enc ext cf st, selectEncoding (r.header.Get "Accept-Encoding") = some (enc, ext) ∧
          (enc = "br" ∨ enc = "gzip") ∧ (anchor p fs).Open p (name ++ ext) = .ok cf ∧
          cf.stat = .ok st ∧ st.isDir = false ∧
          e = Event.serveContent hdr name st.modTime cf ∧
          hdr.Values "Content-Encoding" = [enc] ∧ "Accept-Encoding" ∈ hdr.Values "Vary") ∨
        (hdr.Has "Content-Encoding" = false ∧ hdr.Has "Vary" = false ∧
          ((∃ file st, (anchor p fs).Open p name = .ok file ∧ file.stat = .ok st ∧
              st.isDir = false ∧ e = Event.serveContent hdr name st.modTime file) ∨
            (∃ msg code, e = Event.error hdr msg code ∧
              (code = 404 ∨ code = 500 ∨ code = 403))))) := by
  obtain ⟨enc, ext, hsel⟩ := selectEncoding_returns (r.header.Get "Accept-Encoding")
  have h0 := log_setContentType p w name
  have hrun0 := ServeCompressedFile_eq p fs w r name enc ext hsel
  rcases serveNegotiated_cases p (anchor p fs)
    (setContentType p { header := w, log := [] } name) name enc ext with
    ⟨cf, st, henc, hopen, hstat, hdir, hrun⟩ | ⟨attempt, d, hat, -, hrun⟩
  · rw [hrun] at hrun0
    refine ⟨_,
      Event.serveContent
        (((setContentType p { header := w, log := [] } name).header.Set "Content-Encoding"
          enc).Add "Vary" "Accept-Encoding") name st.modTime cf,
      ((setContentType p { header := w, log := [] } name).header.Set "Content-Encoding"
          enc).Add "Vary" "Accept-Encoding", hrun0,
      response_compressed _ _
        (Event.serveContent
          (((setContentType p { header := w, log := [] } name).header.Set "Content-Encoding"
            enc).Add "Vary" "Accept-Encoding") name st.modTime cf) (name ++ ext) h0
        (orig_events_not_response p (anchor p fs) name) rfl _, rfl,
      Or.inl ⟨enc, ext, cf, st, hsel, ?_, hopen, hstat, hdir, rfl, ?_, ?_⟩⟩
    · rcases selectEncoding_selected _ enc ext hsel henc with h | h
      · exact Or.inl h.1
      · exact Or.inr h.1
    · rw [Header.Values_Add_of_ne _ _ _ _ (by decide), Header.Values_Set_self]
    · rw [Header.Values_Add_self]
      simp
  · rw [hrun] at hrun0
    obtain ⟨e, hdr, hresp, hhdr, hkind⟩ := serveUncompressed_reply p (anchor p fs)
      { header := (setContentType p { header := w, log := [] } name).header,
        log := (setContentType p { header := w, log := [] } name).log ++ attempt } name d
      (response_attempt _ attempt d name ext h0 hat)
    have hce0 : (setContentType p { header := w, log := [] } name).header.Has
        "Content-Encoding" = false := by
      rw [Has_setContentType p w name _ (by decide)]
      exact hce
    have hvary0 : (setContentType p { header := w, log := [] } name).header.Has "Vary" =
        false := by
      rw [Has_setContentType p w name _ (by decide)]
      exact hvary
    refine ⟨_, e, hdr, hrun0, hresp, hhdr, Or.inr ?_⟩
    rcases hkind with ⟨file, st, ho, hs, hd, he, hh⟩ | ⟨msg, code, he, hc, hh⟩
    · exact ⟨by rw [hh]; exact hce0, by rw [hh]; exact hvary0, Or.inl ⟨file, st, ho, hs, hd, he⟩⟩
    · refine ⟨by rw [hh]; exact Has_Del_Del_encoding _, ?_, Or.inr ⟨msg, code, he, hc⟩⟩
      rw [hh]
      exact Header.Has_Del_of_lacks _ _ _ (Header.Has_Del_of_lacks _ _ _ hvary0)

/-- An instance of `encoding_headers_only_with_sibling`: `a.js` has a brotli sibling, the
client accepts brotli, and the response writer comes with a `Cache-Control` header. -/
theorem encoding_headers_only_with_sibling_witness :
    ∃ s e hdr, ServeCompressedFile plainPlatform brotliFS ⟨[("Cache-Control", ["no-cache"])]⟩
        (getRequest "br") "a.js" = some s ∧ s.response = [e] ∧ e.header? = some hdr ∧
      ((∃ enc ext cf st,
          selectEncoding ((getRequest "br").header.Get "Accept-Encoding") = some (enc, ext) ∧
          (enc = "br" ∨ enc = "gzip") ∧
          (anchor plainPlatform brotliFS).Open plainPlatform ("a.js" ++ ext) = .ok cf ∧
          cf.stat = .ok st ∧ st.isDir = false ∧
          e = Event.serveContent hdr "a.js" st.modTime cf ∧
          hdr.Values "Content-Encoding" = [enc] ∧ "Accept-Encoding" ∈ hdr.Values "Vary") ∨
        (hdr.Has "Content-Encoding" = false ∧ hdr.Has "Vary" = false ∧
          ((∃ file st, (anchor plainPlatform brotliFS).Open plainPlatform "a.js" = .ok file ∧
              file.stat = .ok st ∧ st.isDir = false ∧
              e = Event.serveContent hdr "a.js" st.modTime file) ∨
            (∃ msg code, e = Event.error hdr msg code ∧
              (code = 404 ∨ code = 500 ∨ code = 403))))) :=
  encoding_headers_only_with_sibling plainPlatform brotliFS ⟨[("Cache-Control", ["no-cache"])]⟩
    (getRequest "br") "a.js" (by decide) (by decide)

theorem Values_setContentType (p : Platform) (w : Header) (name : String)
    (hct : p.TypeByExtension (p.pathExt name) ≠ "") :
    (setContentType p { header := w, log := [] } name).header.Values "Content-Type" =
      [p.TypeByExtension (p.pathExt name)] := by
  unfold setContentType
  simp only [hct, ne_eq, not_false_eq_true, if_true]
  exact Header.Values_Set_self _ _ _

/-- C16: when the extension of `name` has a MIME type, every call of `http.ServeContent`, for
the compressed sibling or for the uncompressed file, is made with that MIME type as the one
value of `Content-Type`; the type is a function of `name`, not of the request. -/
theorem content_type_from_name (p : Platform) (fs : FileSystem) (w : Header) (r : Request)
    (name : String) (hct : p.TypeByExtension (p.pathExt name) ≠ "") :
    ∃ s e, ServeCompressedFile p fs w r name = some s ∧ s.response = [e] ∧
      ∀ hdr n modTime content, e = Event.serveContent hdr n modTime content →
        hdr.Values "Content-Type" = [p.TypeByExtension (p.pathExt name)] ∧
          hdr.Get "Content-Type" = p.TypeByExtension (p.pathExt name) := by
  obtain ⟨enc, ext, hsel⟩ := selectEncoding_returns (r.header.Get "Accept-Encoding")
  have h0 := log_setContentType p w name
  have hrun0 := ServeCompressedFile_eq p fs w r name enc ext hsel
  have hv := Values_setContentType p w name hct
  have hget : ∀ hdr : Header,
      hdr.Values "Content-Type" = [p.TypeByExtension (p.pathExt name)] →
      hdr.Values "Content-Type" = [p.TypeByExtension (p.pathExt name)] ∧
        hdr.Get "Content-Type" = p.TypeByExtension (p.pathExt name) := by
    intro hdr h
    refine ⟨h, ?_⟩
    unfold Header.Get
    rw [h]
    rfl
  rcases serveNegotiated_cases p (anchor p fs)
    (setContentType p { header := w, log := [] } name) name enc ext with
    ⟨cf, st, henc, hopen, hstat, hdir, hrun⟩ | ⟨attempt, d, hat, -, hrun⟩
  · rw [hrun] at hrun0
    refine ⟨_, _, hrun0,
      response_compressed _ _
        (Event.serveContent
          (((setContentType p { header := w, log := [] } name).header.Set "Content-Encoding"
            enc).Add "Vary" "Accept-Encoding") name st.modTime cf) (name ++ ext) h0
        (orig_events_not_response p (anchor p fs) name) rfl _, ?_⟩
    intro hdr n mt f he
    simp only [Event.serveContent.injEq] at he
    apply hget
    rw [← he.1, Header.Values_Add_of_ne _ _ _ _ (by decide),
      Header.Values_Set_of_ne _ _ _ _ (by decide)]
    exact hv
  · rw [hrun] at hrun0
    obtain ⟨e, hdr, hresp, -, hkind⟩ := serveUncompressed_reply p (anchor p fs)
      { header := (setContentType p { header := w, log := [] } name).header,
        log := (setContentType p { header := w, log := [] } name).log ++ attempt } name d
      (response_attempt _ attempt d name ext h0 hat)
    refine ⟨_, e, hrun0, hresp, ?_⟩
    intro hdr' n mt f he
    apply hget
    rcases hkind with ⟨file, st, -, -, -, he', hh⟩ | ⟨msg, code, he', -, -⟩
    · rw [he'] at he
      simp only [Event.serveContent.injEq] at he
      rw [← he.1, hh]
      exact hv
    · rw [he'] at he
      cases he

/-- An instance of `content_type_from_name`: `a.js`, served from its brotli sibling. -/
theorem content_type_from_name_witness :
    ∃ s e, ServeCompressedFile plainPlatform brotliFS ⟨[("Content-Type", ["text/plain"])]⟩
        (getRequest "gzip, br") "a.js" = some s ∧ s.response = [e] ∧
      ∀ hdr n modTime content, e = Event.serveContent hdr n modTime content →
        hdr.Values "Content-Type" = [plainPlatform.TypeByExtension (plainPlatform.pathExt "a.js")] ∧
          hdr.Get "Content-Type" = plainPlatform.TypeByExtension (plainPlatform.pathExt "a.js") :=
  content_type_from_name plainPlatform brotliFS ⟨[("Content-Type", ["text/plain"])]⟩
    (getRequest "gzip, br") "a.js" (by decide)

theorem serveNegotiatedWithoutOrig_fallback (p : Platform) (fs : FileSystem) (s : State)
    (name enc ext : String)
    (hfall : enc ≠ "" → ∀ cf st, fs.Open p (name ++ ext) = .ok cf → cf.stat = .ok st →
      st.isDir = true) :
    serveNegotiatedWithoutOrig p fs s name enc ext = serveNegotiated p fs s name enc ext := by
  unfold serveNegotiatedWithoutOrig serveNegotiated
  by_cases henc : enc = ""
  · simp [henc]
  · simp only [ne_eq, henc, not_false_eq_true, if_true]
    cases hopen : fs.Open p (name ++ ext) with
    | error err => rfl
    | ok cf =>
      simp only
      cases hstat : cf.stat with
      | error err => rfl
      | ok st =>
        have hdir := hfall henc cf st hopen hstat
        simp [hdir]

theorem serveNegotiatedWithoutOrig_compressed (p : Platform) (fs : FileSystem) (s : State)
    (name enc ext : String) (cf : File) (st : FileInfo) (henc : enc ≠ "")
    (hopen : fs.Open p (name ++ ext) = .ok cf) (hstat : cf.stat = .ok st)
    (hdir : st.isDir = false) :
    serveNegotiatedWithoutOrig p fs s name enc ext =
      { header := (s.header.Set "Content-Encoding" enc).Add "Vary" "Accept-Encoding",
        log := s.log ++ [Event.opened (name ++ ext), Event.stat (name ++ ext)] ++
          [Event.serveContent
            ((s.header.Set "Content-Encoding" enc).Add "Vary" "Accept-Encoding") name
            st.modTime cf, Event.closed (name ++ ext)] } := by
  simp [serveNegotiatedWithoutOrig, henc, hopen, hstat, hdir, State.runDeferred,
    State.ServeContent, State.emit]

/-- C17: `ServeCompressedFile` and its variant without lines 69-73 return with the same
response and the same header map; their logs are the same, or differ in the `Open` of `name`
(and, when it succeeds, the `Close` of the file) that the compressed path makes before it
serves the sibling. -/
theorem orig_open_is_dead_code (p : Platform) (fs : FileSystem) (w : Header) (r : Request)
    (name : String) :
    ∃ s t, ServeCompressedFile p fs w r name = some s ∧
      ServeCompressedFileWithoutOrig p fs w r name = some t ∧
      s.response = t.response ∧ s.header = t.header ∧
      (s.log = t.log ∨
        ∃ pre post, t.log = pre ++ post ∧
          ((∃ file, (anchor p fs).Open p name = .ok file ∧
              s.log = pre ++ [Event.opened name, Event.closed name] ++ post) ∨
            (∃ err, (anchor p fs).Open p name = .error err ∧
              s.log = pre ++ [Event.openFailed name] ++ post))) := by
  obtain ⟨enc, ext, hsel⟩ := selectEncoding_returns (r.header.Get "Accept-Encoding")
  have h0 := log_setContentType p w name
  have hrun0 := ServeCompressedFile_eq p fs w r name enc ext hsel
  have hrun1 : ServeCompressedFileWithoutOrig p fs w r name =
      some (serveNegotiatedWithoutOrig p (anchor p fs)
        (setContentType p { header := w, log := [] } name) name enc ext) := by
    unfold ServeCompressedFileWithoutOrig
    simp only [hsel]
  rcases serveNegotiated_cases p (anchor p fs)
    (setContentType p { header := w, log := [] } name) name enc ext with
    ⟨cf, st, henc, hopen, hstat, hdir, hrun⟩ | ⟨attempt, d, hat, hfall, hrun⟩
  · rw [hrun] at hrun0
    rw [serveNegotiatedWithoutOrig_compressed p _ _ name enc ext cf st henc hopen hstat hdir]
      at hrun1
    refine ⟨_, _, hrun0, hrun1, ?_, rfl, Or.inr ⟨_, _, rfl, ?_⟩⟩
    · rw [response_compressed _ _
        (Event.serveContent
          (((setContentType p { header := w, log := [] } name).header.Set "Content-Encoding"
            enc).Add "Vary" "Accept-Encoding") name st.modTime cf) (name ++ ext) h0
        (orig_events_not_response p (anchor p fs) name) rfl _]
      simp [State.response, h0, List.filter_cons, Event.isResponse]
    · cases ho : (anchor p fs).Open p name with
      | ok file => exact Or.inl ⟨file, rfl, by simp⟩
      | error err => exact Or.inr ⟨err, rfl, by simp⟩
  · rw [serveNegotiatedWithoutOrig_fallback p _ _ name enc ext hfall] at hrun1
    exact ⟨_, _, hrun0, hrun1, rfl, rfl, Or.inl rfl⟩

/-- C18: `selectEncoding` returns for every header value: the index `[0]` into the parts of
`strings.SplitN(part, ";", 2)` is in range for every `part`, and the result is one of
`("br", ".br")`, `("gzip", ".gz")` and `("", "")`. -/
theorem selectEncoding_total (h : String) :
    (∀ part, SplitN part ';' 2 ≠ [] ∧ ∃ first, (SplitN part ';' 2).get? 0 = some first) ∧
    (selectEncoding h = some ("br", ".br") ∨ selectEncoding h = some ("gzip", ".gz") ∨
      selectEncoding h = some ("", "")) := by
  constructor
  · intro part
    have hhead := SplitN_two_head part ';'
    refine ⟨?_, _, hhead⟩
    intro hnil
    rw [hnil] at hhead
    cases hhead
  · rw [selectEncoding_eq]
    split_ifs
    · exact Or.inl rfl
    · exact Or.inr (Or.inl rfl)
    · exact Or.inr (Or.inr rfl)

theorem Header.Values_Del_of_ne (h : Header) (k k' : String) (hne : k' ≠ k) :
    (h.Del k).Values k' = h.Values k' := by
  simp [Header.Values, Header.Del, lookup_filter_of_ne _ _ _ hne]

theorem Values_setContentType_of_ne (p : Platform) (w : Header) (name key : String)
    (hne : key ≠ "Content-Type") :
    (setContentType p { header := w, log := [] } name).header.Values key = w.Values key := by
  unfold setContentType
  simp only
  split
  · exact Header.Values_Set_of_ne w _ key _ hne
  · rfl

/-- An error 500 of the fallback is the failure of the `Stat` of `name`. -/
theorem serveUncompressed_500 (p : Platform) (fs : FileSystem) (s : State) (name : String)
    (d : List String) (hdr : Header) (msg : String) (hr : s.response = [])
    (hresp : (serveUncompressed p fs s name d).response = [Event.error hdr msg 500]) :
    ∃ file, fs.Open p name = .ok file ∧ file.stat = .error msg := by
  cases ho : fs.Open p name with
  | error err =>
    rw [serveUncompressed_openFailed p fs s name d err ho, hr, List.nil_append] at hresp
    simp at hresp
  | ok file =>
    cases hstat : file.stat with
    | error err =>
      rw [serveUncompressed_statFailed p fs s name d file err ho hstat, hr,
        List.nil_append] at hresp
      simp only [List.cons.injEq, Event.error.injEq, and_true] at hresp
      exact ⟨file, rfl, by rw [hstat, hresp.2]⟩
    | ok st =>
      cases hdir : st.isDir with
      | true =>
        rw [serveUncompressed_isDir p fs s name d file st ho hstat hdir, hr,
          List.nil_append] at hresp
        simp at hresp
      | false =>
        rw [serveUncompressed_regular p fs s name d file st ho hstat hdir, hr,
          List.nil_append] at hresp
        simp at hresp

/-- The two file systems `siblingStatFailFS` and `noSiblingFS` differ at `a.js.br` only. -/
theorem siblingStatFailFS_differs_at_sibling (path : String) (hne : path ≠ "a.js" ++ ".br") :
    (anchor plainPlatform siblingStatFailFS).Open plainPlatform path =
      (anchor plainPlatform noSiblingFS).Open plainPlatform path := by
  have hne' : path ≠ "a.js.br" := hne
  by_cases h1 : path = "a.js"
  · subst h1
    decide
  · have hb1 : (path == "a.js") = false := by simpa using h1
    have hb2 : (path == "a.js.br") = false := by simpa using hne'
    simp [anchor, siblingStatFailFS, noSiblingFS, memFS, FileSystem.Open, List.lookup, hb1, hb2]

/-- C19: two file systems that differ only in that the sibling of the selected encoding opens
and fails its `Stat` in the one and does not open in the other get the same response.  An error
500 in it is the failure of the `Stat` of `name` itself, and a `Content-Encoding` or `Vary`
entry in its header map is one that the function was called with, not one that it set. -/
theorem sibling_stat_failure_as_missing (p : Platform) (fs₁ fs₂ : FileSystem) (w : Header)
    (r : Request) (name enc ext : String) (sibling : File) (serr err : String)
    (hsel : selectEncoding (r.header.Get "Accept-Encoding") = some (enc, ext)) (henc : enc ≠ "")
    (hopen₁ : (anchor p fs₁).Open p (name ++ ext) = .ok sibling)
    (hstat : sibling.stat = .error serr)
    (hopen₂ : (anchor p fs₂).Open p (name ++ ext) = .error err)
    (hsame : ∀ path, path ≠ name ++ ext →
      (anchor p fs₁).Open p path = (anchor p fs₂).Open p path) :
    ∃ s t e hdr, ServeCompressedFile p fs₁ w r name = some s ∧
      ServeCompressedFile p fs₂ w r name = some t ∧
      s.response = [e] ∧ t.response = [e] ∧ e.header? = some hdr ∧
      (∀ hdr' msg, e = Event.error hdr' msg 500 →
        ∃ file, (anchor p fs₁).Open p name = .ok file ∧ file.stat = .error msg) ∧
      (∀ key, key = "Content-Encoding" ∨ key = "Vary" → hdr.Has key = true →
        w.Has key = true ∧ hdr.Values key = w.Values key) := by
  obtain ⟨s₁, d₁, hrun₁, hh₁, hr₁⟩ := ServeCompressedFile_fallback p fs₁ w r name (by
    intro enc' ext' cf st' hsel' _ ho hs
    rw [hsel] at hsel'
    simp only [Option.some.injEq, Prod.mk.injEq] at hsel'
    rw [← hsel'.2, hopen₁] at ho
    cases ho
    rw [hstat] at hs
    cases hs)
  obtain ⟨s₂, d₂, hrun₂, hh₂, hr₂⟩ := ServeCompressedFile_fallback p fs₂ w r name (by
    intro enc' ext' cf st' hsel' _ ho hs
    rw [hsel] at hsel'
    simp only [Option.some.injEq, Prod.mk.injEq] at hsel'
    rw [← hsel'.2, hopen₂] at ho
    cases ho)
  have hext : ext ≠ "" := selectEncoding_ext_ne _ enc ext hsel henc
  have hname : (anchor p fs₁).Open p name = (anchor p fs₂).Open p name :=
    hsame name fun e => append_ne_self name ext hext e.symm
  have hcongr := serveUncompressed_response_congr p (anchor p fs₁) (anchor p fs₂) s₁ s₂ name d₁ d₂
    hname (hh₁.trans hh₂.symm) (hr₁.trans hr₂.symm)
  obtain ⟨e, hdr, hresp, hhdr, hkind⟩ :=
    serveUncompressed_reply p (anchor p fs₁) s₁ name d₁ hr₁
  refine ⟨_, _, e, hdr, hrun₁, hrun₂, hresp, by rw [← hcongr]; exact hresp, hhdr, ?_, ?_⟩
  · intro hdr' msg he
    rw [he] at hresp
    exact serveUncompressed_500 p (anchor p fs₁) s₁ name d₁ hdr' msg hr₁ hresp
  · intro key hkey hhas
    have hne : key ≠ "Content-Type" := by
      rcases hkey with rfl | rfl <;> decide
    rcases hkind with ⟨file, st, -, -, -, -, hh⟩ | ⟨msg, code, -, -, hh⟩
    · rw [hh, hh₁] at hhas ⊢
      rw [Has_setContentType p w name key hne] at hhas
      exact ⟨hhas, Values_setContentType_of_ne p w name key hne⟩
    · rcases hkey with rfl | rfl
      · rw [hh, Has_Del_Del_encoding] at hhas
        cases hhas
      · rw [hh, hh₁] at hhas ⊢
        rw [Header.Has_Del_of_ne _ _ _ (by decide), Header.Has_Del_of_ne _ _ _ (by decide),
          Has_setContentType p w name _ (by decide)] at hhas
        rw [Header.Values_Del_of_ne _ _ _ (by decide), Header.Values_Del_of_ne _ _ _ (by decide)]
        exact ⟨hhas, Values_setContentType_of_ne p w name _ (by decide)⟩

/-- An instance of `sibling_stat_failure_as_missing`: the `Stat` of `a.js.br` fails in the one
file system, `a.js.br` is missing in the other, and the client accepts brotli. -/
theorem sibling_stat_failure_as_missing_witness :
    ∃ s t e hdr, ServeCompressedFile plainPlatform siblingStatFailFS ⟨[]⟩ (getRequest "br")
        "a.js" = some s ∧
      ServeCompressedFile plainPlatform noSiblingFS ⟨[]⟩ (getRequest "br") "a.js" = some t ∧
      s.response = [e] ∧ t.response = [e] ∧ e.header? = some hdr ∧
      (∀ hdr' msg, e = Event.error hdr' msg 500 →
        ∃ file, (anchor plainPlatform siblingStatFailFS).Open plainPlatform "a.js" = .ok file ∧
          file.stat = .error msg) ∧
      (∀ key, key = "Content-Encoding" ∨ key = "Vary" → hdr.Has key = true →
        (⟨[]⟩ : Header).Has key = true ∧ hdr.Values key = (⟨[]⟩ : Header).Values key) :=
  sibling_stat_failure_as_missing plainPlatform siblingStatFailFS noSiblingFS ⟨[]⟩
    (getRequest "br") "a.js" "br" ".br" brokenFile "stat: input/output error"
    "open a.js.br: file does not exist" (by decide) (by decide) (by decide) rfl (by decide)
    siblingStatFailFS_differs_at_sibling

end Proxy
